import Mathlib

/-!
# Verification of the aiven-client core: renderer (`pretty.py`) and config compiler (`cli.py`)

This file gives a shallow embedding of the two core modules of the
`aiven-client` repository and proves/refutes the specification claims about
them.

* `pretty.py`: `format_item`, `print_list`, `print_table`.
* `cli.py`: `convert_str_to_value`, `AivenCLI.collect_user_config_options`,
  and the assignment-compilation loop of `AivenCLI.create_user_config`.

Values are modelled by the JSON universe (`Value` below): strings, arbitrary
precision integers, booleans, null, ordered lists, and insertion-ordered
string-keyed mappings — exactly the shapes a decoded JSON API response can
take (the `datetime.datetime` branch of `format_item` and float values are
outside this universe and are not exercised by any claim).  Python `dict`s
are modelled as ordered association lists; assignment to an existing key
replaces the value in place, assignment to a fresh key appends — the
semantics of Python 3 dicts.  Python exceptions are modelled with `Except`:
a function that can raise returns `Except PyExc _`.
-/

namespace AivenClient

/-! ## Generic helpers: Python string/list primitives -/

/-- Python `sep.join(parts)`. -/
def joinSep (sep : String) : List String → String
  | [] => ""
  | x :: xs => xs.foldl (fun acc y => acc ++ sep ++ y) x

/-- Python code-point comparison of strings (`a < b`), as a `Bool`. -/
def lexLt : List Char → List Char → Bool
  | [], [] => false
  | [], _ :: _ => true
  | _ :: _, [] => false
  | a :: as', b :: bs => if a.val < b.val then true
      else if a.val = b.val then lexLt as' bs else false

/-- `a < b` on strings, Python semantics (code-point lexicographic). -/
def strLt (a b : String) : Bool := lexLt a.data b.data

/-- Insert into an ascending list (used to model Python `sorted`). -/
def insertSortedStr (x : String) : List String → List String
  | [] => [x]
  | y :: ys => if strLt y x then y :: insertSortedStr x ys else x :: y :: ys

/-- Python `sorted(list_of_strings)`. -/
def sortStrings (l : List String) : List String := l.foldr insertSortedStr []

/-- Insert a key/value pair into a list ascending by key. -/
def insertSortedKV {α : Type} (x : String × α) : List (String × α) → List (String × α)
  | [] => [x]
  | y :: ys => if strLt y.1 x.1 then y :: insertSortedKV x ys else x :: y :: ys

/-- Python `sorted(d.items())` for a dict `d` (distinct keys, so the tuple
comparison never reaches the values and sorting by key is faithful). -/
def sortByKeyStr {α : Type} (l : List (String × α)) : List (String × α) :=
  l.foldr insertSortedKV []

/-- Python dict assignment `d[k] = v` on an insertion-ordered association
list: replaces in place if the key exists, appends otherwise. -/
def insertKV {α : Type} (row : List (String × α)) (k : String) (v : α) :
    List (String × α) :=
  match row with
  | [] => [(k, v)]
  | (k', v') :: rest =>
    if k' = k then (k', v) :: rest else (k', v') :: insertKV rest k v

/-- Python `d.update(other)` on association lists. -/
def updateDict {α : Type} (d : List (String × α)) (other : List (String × α)) :
    List (String × α) :=
  other.foldl (fun acc kv => insertKV acc kv.1 kv.2) d

/-- Python `s.ljust(w)`. -/
def ljust (s : String) (w : Nat) : String :=
  s ++ String.mk (List.replicate (w - s.length) ' ')

/-- Python `c * n` for a single character (e.g. `"=" * width`). -/
def repeatChar (c : Char) (n : Nat) : String := String.mk (List.replicate n c)

/-- Python `s.upper()` (ASCII letters; field names are ASCII). -/
def pyUpper (s : String) : String := String.mk (s.data.map Char.toUpper)

/-- Python `suffix in s`-style suffix test: `s.endswith(suf)`. -/
def pyEndsWith (s suf : String) : Bool := suf.data.isSuffixOf s.data

/-- Python `needle in haystack` for strings: contiguous substring test. -/
def listIsInfix : List Char → List Char → Bool
  | needle, [] => needle.isEmpty
  | needle, c :: cs => needle.isPrefixOf (c :: cs) || listIsInfix needle cs

/-- Python `value.split(sep, 1)[0]`: the part before the first `sep`
(the whole string when `sep` does not occur). -/
def beforeFirst (sep : Char) (s : String) : String :=
  String.mk (s.data.takeWhile (· ≠ sep))

/-- Python `value.split(sep, 1)[-1]` (= `[1]` when `sep` occurs, the whole
string otherwise): the part after the first `sep`. -/
def afterFirst (sep : Char) (s : String) : String :=
  if s.data.contains sep then String.mk ((s.data.dropWhile (· ≠ sep)).drop 1) else s

/-- Python `s.split(sep)` (no limit) for a one-character separator. -/
def pySplitAll (sep : Char) : List Char → List (List Char)
  | [] => [[]]
  | c :: cs =>
    let r := pySplitAll sep cs
    if c = sep then [] :: r
    else match r with
      | h :: t => (c :: h) :: t
      | [] => [[c]]

/-- Python `s.split(sep)` on strings. -/
def pySplit (sep : Char) (s : String) : List String :=
  (pySplitAll sep s.data).map String.mk

/-- Python `max` of a list of naturals, with `0` for the empty list (the
source always guards the empty case with `... if lengths else 0`). -/
def pyMax (l : List Nat) : Nat := l.foldl Nat.max 0

/-! ## The JSON value universe -/

/-- A decoded JSON value: the shapes `print_table` receives from the API.
Objects are insertion-ordered association lists (Python 3 dicts). -/
inductive Value where
  | str (s : String)
  | int (n : Int)
  | bool (b : Bool)
  | null
  | list (xs : List Value)
  | obj (fields : List (String × Value))
deriving Repr

/-- Is the value a mapping?  (`isinstance(value, dict)`.) -/
def Value.isObj : Value → Bool
  | .obj _ => true
  | _ => false

/-! ## `json.dumps` model -/

def hexDigit (n : Nat) : Char := Nat.digitChar (n % 16)

/-- Four lowercase hex digits, as in Python's `\uXXXX` escapes. -/
def hex4 (n : Nat) : String :=
  String.mk [hexDigit (n / 4096), hexDigit (n / 256), hexDigit (n / 16), hexDigit n]

/-- One character of `json.dumps` output with the default `ensure_ascii=True`:
characters outside `0x20`–`0x7e` are `\u`-escaped (surrogate pairs above
`0xffff`), plus the two-character escapes for quote, backslash and controls. -/
def jsonEscapeChar (c : Char) : String :=
  if c = '"' then "\\\""
  else if c = '\\' then "\\\\"
  else if c = '\n' then "\\n"
  else if c = '\r' then "\\r"
  else if c = '\t' then "\\t"
  else if c.val.toNat = 8 then "\\b"
  else if c.val.toNat = 12 then "\\f"
  else if c.val.toNat < 0x20 then "\\u" ++ hex4 c.val.toNat
  else if c.val.toNat ≤ 0x7e then String.mk [c]
  else if c.val.toNat ≤ 0xffff then "\\u" ++ hex4 c.val.toNat
  else
    let v := c.val.toNat - 0x10000
    "\\u" ++ hex4 (0xd800 + v / 0x400) ++ "\\u" ++ hex4 (0xdc00 + v % 0x400)

/-- Python `"".join(parts)` (concatenation). -/
def concatAll : List String → String
  | [] => ""
  | s :: rest => s ++ concatAll rest

/-- Python `json.dumps(s)` for a string `s`. -/
def jsonDumpsStr (s : String) : String :=
  "\"" ++ concatAll (s.data.map jsonEscapeChar) ++ "\""

mutual
/-- Python `json.dumps(value, sort_keys=True)` with default separators.
Keys are sorted at every level; since sorting an object's items by key
commutes with rendering the values, the sort is applied to the rendered
items (termination requires recursing on the original sub-values). -/
def jsonDumpsSorted : Value → String
  | .str s => jsonDumpsStr s
  | .int n => toString n
  | .bool b => if b then "true" else "false"
  | .null => "null"
  | .list xs => "[" ++ joinSep ", " (jsonListItems xs) ++ "]"
  | .obj fs =>
    "\x7b" ++ joinSep ", "
      ((sortByKeyStr (jsonObjItems fs)).map fun kv => jsonDumpsStr kv.1 ++ ": " ++ kv.2)
      ++ "\x7d"

def jsonListItems : List Value → List String
  | [] => []
  | v :: vs => jsonDumpsSorted v :: jsonListItems vs

def jsonObjItems : List (String × Value) → List (String × String)
  | [] => []
  | (k, v) :: fs => (k, jsonDumpsSorted v) :: jsonObjItems fs
end

/-! ## `pretty.format_item` and `pretty.print_list` -/

/-- The tail of `format_item`'s string branch: JSON-encode the string, but
return the original when quoting it reproduces the exact same text
(`json_v == '"{}"'.format(value)`). -/
def strRender (s : String) : String :=
  let jsonV := jsonDumpsStr s
  if jsonV = "\"" ++ s ++ "\"" then s else jsonV

/-- `key and key.endswith("_time")` — `key` may be `None` or falsy-empty. -/
def keyEndsTime : Option String → Bool
  | Option.none => false
  | some k => !(k = "") && pyEndsWith k "_time"

mutual
/-- `pretty.format_item(key, value)` for JSON values (the
`datetime.datetime` branch lies outside the modelled universe). -/
def formatItem : Option String → Value → String
  | _, .list xs => joinSep ", " (formatItemsNone xs)
  | _, .obj fs => jsonDumpsSorted (.obj fs)
  | key, .str s =>
    let s := if keyEndsTime key && pyEndsWith s "Z" && s.data.contains '.'
      then beforeFirst '.' s ++ "Z" else s
    strRender s
  | _, .int n => toString n
  | _, .bool b => if b then "true" else "false"
  | _, .null => "null"

def formatItemsNone : List Value → List String
  | [] => []
  | v :: vs => formatItem Option.none v :: formatItemsNone vs
end

/-- `pretty.print_list(result)`: the printed lines. -/
def printList (result : List Value) : List String :=
  result.map (formatItem Option.none)

/-! ## `fnmatch.fnmatch` model (POSIX `normcase` is the identity) -/

/-- One compiled token of an `fnmatch` pattern (cf. `fnmatch.translate`). -/
inductive GlobTok where
  | lit (c : Char)
  | anyChar
  | star
  | cls (negated : Bool) (content : List Char)
deriving Repr

/-- Scan a bracket expression up to the closing `]`; `none` when the
bracket never closes (then `[` is taken literally). -/
def scanClass : List Char → Option (List Char × List Char)
  | [] => Option.none
  | ']' :: rest => some ([], rest)
  | c :: rest => (scanClass rest).map fun p => (c :: p.1, p.2)

theorem scanClass_length :
    ∀ l content rest, scanClass l = some (content, rest) → rest.length ≤ l.length := by
  intro l
  induction l with
  | nil => intro c r h; simp [scanClass] at h
  | cons x xs ih =>
    intro c r h
    by_cases hx : x = ']'
    · subst hx
      simp [scanClass] at h
      simp [h.2]
    · rw [show scanClass (x :: xs) = (scanClass xs).map fun p => (x :: p.1, p.2) by
        cases x; simp [scanClass, hx]] at h
      match hs : scanClass xs with
      | Option.none => rw [hs] at h; simp at h
      | some (c', r') =>
        rw [hs] at h
        simp at h
        have := ih c' r' hs
        simp [← h.2]
        omega

/-- Parse the body of a bracket expression (the characters after `[`):
optional `!` negation, a literal `]` first, then content up to the closing
`]`.  Returns `(negated, content, remainder)`, or `none` when unclosed. -/
def parseBracket (rest : List Char) : Option (Bool × List Char × List Char) :=
  match rest with
  | '!' :: ']' :: r2 => (scanClass r2).map fun p => (true, ']' :: p.1, p.2)
  | '!' :: r2 => (scanClass r2).map fun p => (true, p.1, p.2)
  | ']' :: r2 => (scanClass r2).map fun p => (false, ']' :: p.1, p.2)
  | r2 => (scanClass r2).map fun p => (false, p.1, p.2)

theorem parseBracket_length (rest : List Char) (neg : Bool) (content rem : List Char)
    (h : parseBracket rest = some (neg, content, rem)) : rem.length ≤ rest.length := by
  unfold parseBracket at h
  split at h <;>
  · rw [Option.map_eq_some'] at h
    obtain ⟨p, hp, hq⟩ := h
    have hlen := scanClass_length _ p.1 p.2 hp
    simp only [Prod.mk.injEq] at hq
    obtain ⟨h1, h2, h3⟩ := hq
    subst h3
    try simp only [List.length_cons]
    omega

/-- Compile an `fnmatch` pattern to tokens, following `fnmatch.translate`:
`*`, `?`, bracket expressions with optional leading `!` (negation) and a
literal `]` first; an unclosed `[` is a literal character.  Fuel-indexed
(structural on the fuel) so the function reduces in the kernel; every step
consumes at least one pattern character (`parseBracket_length`), so fuel
`pat.length` — passed by `translateGlob` below — never runs out. -/
def translateGlobFuel : Nat → List Char → List GlobTok
  | 0, _ => []
  | _ + 1, [] => []
  | n + 1, '*' :: rest => .star :: translateGlobFuel n rest
  | n + 1, '?' :: rest => .anyChar :: translateGlobFuel n rest
  | n + 1, '[' :: rest =>
    match parseBracket rest with
    | some (neg, content, rem) => .cls neg content :: translateGlobFuel n rem
    | Option.none => .lit '[' :: translateGlobFuel n rest
  | n + 1, c :: rest => .lit c :: translateGlobFuel n rest

def translateGlob (pat : List Char) : List GlobTok :=
  translateGlobFuel pat.length pat

/-- Does char `c` match the content of a bracket expression (`a`, `a-z`
ranges, as produced by `fnmatch.translate`)? -/
def matchSet : List Char → Char → Bool
  | a :: '-' :: b :: rest, c =>
    (a.val ≤ c.val && c.val ≤ b.val) || matchSet rest c
  | a :: rest, c => a = c || matchSet rest c
  | [], _ => false

/-- Match compiled glob tokens against a character list (full match, as
`fnmatch` anchors its regex with `\\Z`).  Fuel-indexed; each step shortens
`tokens + chars` by at least one, so the fuel passed by `fnmatchB` below
never runs out. -/
def tokMatchFuel : Nat → List GlobTok → List Char → Bool
  | 0, _, _ => false
  | _ + 1, [], [] => true
  | _ + 1, [], _ :: _ => false
  | n + 1, .star :: ps, [] => tokMatchFuel n ps []
  | n + 1, .star :: ps, c :: cs =>
    tokMatchFuel n ps (c :: cs) || tokMatchFuel n (.star :: ps) cs
  | n + 1, .anyChar :: ps, _ :: cs => tokMatchFuel n ps cs
  | _ + 1, .anyChar :: _, [] => false
  | n + 1, .lit p :: ps, c :: cs => p = c && tokMatchFuel n ps cs
  | _ + 1, .lit _ :: _, [] => false
  | n + 1, .cls neg content :: ps, c :: cs =>
    (matchSet content c != neg) && tokMatchFuel n ps cs
  | _ + 1, .cls _ _ :: _, [] => false

/-- `fnmatch.fnmatch(name, pat)` (POSIX, where `normcase` is the identity). -/
def fnmatchB (name pat : String) : Bool :=
  tokMatchFuel ((translateGlob pat.data).length + name.data.length + 1)
    (translateGlob pat.data) name.data

/-! ## `pretty.print_table` -/

/-- Python exceptions that escape the modelled functions. -/
inductive PyExc where
  | attributeError (msg : String)
  | indexError (msg : String)
  | keyError (key : String)
  | typeError (msg : String)
  | valueError (msg : String)
deriving Repr

mutual
/-- The nested `iter_values` generator of `print_table`: flatten nested
mappings into dotted paths, depth-first in original key order. -/
def iterValues (key : String) : Value → List (String × Value)
  | .obj fs => iterValuesList key fs
  | v => [(key, v)]

def iterValuesList (key : String) : List (String × Value) → List (String × Value)
  | [] => []
  | (sub, sv) :: fs =>
    iterValues (if key = "" then sub else key ++ "." ++ sub) sv ++ iterValuesList key fs
end

/-- One row of formatted values (`formatted_row`), an insertion-ordered dict
from flattened field name to formatted string. -/
abbrev Row := List (String × String)

/-- Column-width table (`widths`), name to width. -/
abbrev Widths := List (String × Nat)

/-- `widths[subkey] = max(len(subkey), len(formatted), widths.get(subkey, 1))`. -/
def updateWidth (widths : Widths) (k fv : String) : Widths :=
  insertKV widths k (Nat.max k.length (Nat.max fv.length ((List.lookup k widths).getD 1)))

/-- The inner loop of `print_table`'s formatting pass: process one
top-level `(key, value)` pair of a record. -/
def processField (dropFields : List String) (acc : Row × Widths) (kv : String × Value) :
    Row × Widths :=
  if dropFields.contains kv.1 then acc
  else
    (iterValues kv.1 kv.2).foldl
      (fun rw skv =>
        let fv := formatItem (some skv.1) skv.2
        (insertKV rw.1 skv.1 fv, updateWidth rw.2 skv.1 fv))
      acc

/-- Format one record into a row, threading the running widths. -/
def processItem (dropFields : List String) (widths : Widths)
    (fields : List (String × Value)) : Row × Widths :=
  fields.foldl (processField dropFields) ([], widths)

/-- The full formatting pass over all records (`formatted_values`, `widths`). -/
def buildRows (dropFields : List String) (items : List (List (String × Value))) :
    List Row × Widths :=
  items.foldl
    (fun acc fields =>
      let rw := processItem dropFields acc.2 fields
      (acc.1 ++ [rw.1], rw.2))
    ([], [])

/-- `for key, value in item.items()` requires each record to be a mapping;
a non-mapping raises `AttributeError` (no `.items`). -/
def asObjList : List Value → Except PyExc (List (List (String × Value)))
  | [] => .ok []
  | .obj fs :: rest => (asObjList rest).map (fs :: ·)
  | _ :: _ => .error (.attributeError "'.items' on a non-dict record")

/-- The table layout argument: `None`, a flat list of field names, or a
nested list of rows (row 0 horizontal, the rest vertical patterns). -/
inductive TableLayout where
  | noLayout
  | flat (fields : List String)
  | nested (rows : List (List String))
deriving Repr

/-- Layout normalisation in `print_table`: default to `sorted(widths)` when
absent, then wrap a flat layout in a singleton list.  Indexing
`table_layout[0]` raises `IndexError` on an empty layout list (including
the synthesized one, when no record contributed any field). -/
def normalizeLayout (widths : Widths) :
    TableLayout → Except PyExc (List String × List (List String))
  | .noLayout =>
    match sortStrings (widths.map Prod.fst) with
    | [] => .error (.indexError "list index out of range")
    | fs => .ok (fs, [])
  | .flat [] => .error (.indexError "list index out of range")
  | .flat fs => .ok (fs, [])
  | .nested [] => .error (.indexError "list index out of range")
  | .nested (h :: t) => .ok (h, t)

/-- Resolve `widths[f]` for every horizontal field, left to right; a field
that never appeared in any record raises `KeyError`. -/
def resolveWidths (widths : Widths) : List String → Except PyExc (List (String × Nat))
  | [] => .ok []
  | f :: fs =>
    match List.lookup f widths with
    | some w => (resolveWidths widths fs).map ((f, w) :: ·)
    | Option.none => .error (.keyError f)

/-- `longest(vf)`: max de-prefixed-name length over the fields of
`formatted_row` matching pattern `vf` — where `formatted_row`, read inside
the closure at the time `vertical_width` is computed, is the *last*
record's row left over from the formatting loop. -/
def longestMatch (lastRow : Row) (vf : String) : Nat :=
  pyMax ((lastRow.filter fun kv => fnmatchB kv.1 vf).map fun kv => (afterFirst '.' kv.1).length)

/-- `vertical_width`: computed once, before the printing loop, from the
last record's row only. -/
def verticalWidth (rows : List Row) (verticals : List (List String)) : Nat :=
  if verticals.isEmpty then 0
  else pyMax (verticals.map fun vf => pyMax (vf.map (longestMatch ((rows.getLast?).getD []))))

/-- The header line: upper-cased names, left-justified, two-space joined. -/
def headerLine (hw : List (String × Nat)) : String :=
  joinSep "  " (hw.map fun fw => ljust (pyUpper fw.1) fw.2)

/-- The `===` separator line. -/
def sepLine (hw : List (String × Nat)) : String :=
  joinSep "  " (hw.map fun fw => repeatChar '=' fw.2)

/-- One data row: `formatted_row.get(f, "")`, left-justified per column. -/
def dataLine (hw : List (String × Nat)) (row : Row) : String :=
  joinSep "  " (hw.map fun fw => ljust ((List.lookup fw.1 row).getD "") fw.2)

/-- The vertical detail lines of one record: for each vertical pattern, the
matching fields of the row in sorted order, rendered
`"    {name:{vertical_width}} = {value}"` with the de-prefixed name. -/
def detailLines (verticals : List (List String)) (vw : Nat) (row : Row) : List String :=
  verticals.flatMap fun vfRow =>
    vfRow.flatMap fun vf =>
      (sortByKeyStr row).filterMap fun kv =>
        if fnmatchB kv.1 vf then
          some ("    " ++ ljust (afterFirst '.' kv.1) vw ++ " = " ++ kv.2)
        else Option.none

/-- The printing loop over records: a blank separator line is printed
before the row of every record but the first whenever the layout has
vertical rows (`len(table_layout) > 1 and row_num > 0`). -/
def renderRows (hw : List (String × Nat)) (verticals : List (List String)) (vw : Nat) :
    Nat → List Row → List String
  | _, [] => []
  | rowNum, row :: rest =>
    ((if !verticals.isEmpty && rowNum > 0 then [""] else []) ++
      (dataLine hw row :: detailLines verticals vw row)) ++
      renderRows hw verticals vw (rowNum + 1) rest

/-- `pretty.print_table(result, drop_fields, table_layout)`: the list of
printed lines, or the Python exception it raises.

The source checks only `result[0]` for dict-ness before entering the
formatting loop, so a non-mapping element after a mapping head raises
`AttributeError`; `table_layout[0]` on an empty layout raises `IndexError`;
`widths[f]` for a horizontal field absent from every record raises
`KeyError`. -/
def printTable (result : List Value) (dropFields : List String)
    (tableLayout : TableLayout) : Except PyExc (List String) :=
  match result with
  | [] => .ok []
  | first :: _ =>
    if first.isObj then do
      let items ← asObjList result
      let rw := buildRows dropFields items
      let hv ← normalizeLayout rw.2 tableLayout
      let hw ← resolveWidths rw.2 hv.1
      let vw := verticalWidth rw.1 hv.2
      .ok (headerLine hw :: sepLine hw :: renderRows hw hv.2 vw 0 rw.1)
    else .ok (printList result)

/-! ## `cli.py`: schema model and `convert_str_to_value` -/

/-- The `"type"` entry of a schema node: a JSON string or a list of type
names.  Python's `"integer" in schema["type"]` is a substring test on a
string and a membership test on a list. -/
inductive TypeField where
  | s (t : String)
  | l (ts : List String)
deriving Repr, DecidableEq

/-- `needle in schema["type"]`. -/
def pyInType (needle : String) : TypeField → Bool
  | .s t => listIsInfix needle.data t.data
  | .l ts => ts.contains needle

/-- A `user_config_schema` node, as consumed by the config compiler: its
`"type"`, its `"properties"` and `"patternProperties"` mappings, and its
`"items"` sub-schema (absent `"items"` on an array raises `KeyError`).
A node always carries `"type"` — `collect_user_config_options` reads
`spec["type"]` unconditionally. -/
inductive SchemaNode where
  | mk (typeField : TypeField)
       (properties : List (String × SchemaNode))
       (patternProperties : List (String × SchemaNode))
       (items : Option SchemaNode)
deriving Repr

def SchemaNode.typeField : SchemaNode → TypeField
  | .mk t _ _ _ => t

def SchemaNode.properties : SchemaNode → List (String × SchemaNode)
  | .mk _ p _ _ => p

def SchemaNode.patternProperties : SchemaNode → List (String × SchemaNode)
  | .mk _ _ pp _ => pp

def SchemaNode.items : SchemaNode → Option SchemaNode
  | .mk _ _ _ i => i

/-- A leaf schema node with the given type and no children. -/
def leafSchema (t : String) : SchemaNode := .mk (.s t) [] [] Option.none

/-- Python `repr` of a string, as used by `{!r}` in the error messages
(single quotes, double quotes when the string contains `'` but no `"`,
with the basic backslash escapes). -/
def pyReprStr (s : String) : String :=
  let q : Char := if s.data.contains '\'' && !(s.data.contains '"') then '"' else '\''
  let esc : Char → String := fun c =>
    if c = '\\' then "\\\\"
    else if c = q then "\\" ++ String.mk [q]
    else if c = '\n' then "\\n"
    else if c = '\r' then "\\r"
    else if c = '\t' then "\\t"
    else String.mk [c]
  String.mk [q] ++ String.join (s.data.map esc) ++ String.mk [q]

/-- Python `repr(schema["type"])`. -/
def pyReprType : TypeField → String
  | .s t => pyReprStr t
  | .l ts => "[" ++ joinSep ", " (ts.map pyReprStr) ++ "]"

/-- The `argx.UserError` values raised by the config compiler, with the
data each `raise` site formats into its message.  (`argx` is not part of
the sources here; per the spec these are ordinary value-level errors
distinct from `ValueError`.) -/
inductive UserError where
  | invalidConfigValue (keyValue : String)
  | unsupportedOption (key : String) (available : List String)
  | invalidBooleanValue (value : String)
  | unsupportedValueType (typeRepr : String)
  | invalidValue (keyValue : String) (detail : String)
deriving Repr, DecidableEq

/-- The message each error is raised with, exactly as formatted in
`cli.py`. -/
def UserError.message : UserError → String
  | .invalidConfigValue kv =>
    "Invalid config value: " ++ pyReprStr kv ++
      ", expected '<KEY>[.<SUBKEY>]=<JSON_VALUE>'"
  | .unsupportedOption key available =>
    let joined := joinSep ", " available
    "Unsupported option " ++ pyReprStr key ++ ", available options: " ++
      (if joined = "" then "none" else joined)
  | .invalidBooleanValue v =>
    "Invalid boolean value " ++ pyReprStr v ++ ": expected one of 1, 0, true, false"
  | .unsupportedValueType tr =>
    "Supported for option value type(s) " ++ tr ++ " is unimplemented"
  | .invalidValue kv detail =>
    "Invalid value " ++ pyReprStr kv ++ ": " ++ detail

/-! ## Python numeric literal parsing (`int(s, 0)` and `float(s)`) -/

/-- The value of a digit character in the given base (ASCII digits and
letters; CPython additionally accepts Unicode decimal digits, which are
outside the modelled universe). -/
def digitVal (base : Nat) (c : Char) : Option Nat :=
  let v :=
    if '0' ≤ c && c ≤ '9' then some (c.val.toNat - '0'.val.toNat)
    else if 'a' ≤ c && c ≤ 'z' then some (c.val.toNat - 'a'.val.toNat + 10)
    else if 'A' ≤ c && c ≤ 'Z' then some (c.val.toNat - 'A'.val.toNat + 10)
    else Option.none
  v.bind fun d => if d < base then some d else Option.none

/-- Consume `('_'? digit)*` to the end of the string, accumulating. -/
def goDigits (base : Nat) : List Char → Nat → Option Nat
  | [], acc => some acc
  | '_' :: c :: rest, acc =>
    (digitVal base c).bind fun d => goDigits base rest (acc * base + d)
  | ['_'], _ => Option.none
  | c :: rest, acc =>
    (digitVal base c).bind fun d => goDigits base rest (acc * base + d)

/-- Parse `digit ('_'? digit)*` spanning the whole list. -/
def parseUDigits (base : Nat) : List Char → Option Nat
  | [] => Option.none
  | c :: rest => (digitVal base c).bind fun d => goDigits base rest d

/-- Parse the digits after a `0x`/`0o`/`0b` prefix; one underscore is
allowed directly after the prefix. -/
def parseAfterPrefix (base : Nat) : List Char → Option Nat
  | '_' :: rest => parseUDigits base rest
  | cs => parseUDigits base cs

/-- Strip leading and trailing whitespace (Python `str.strip()` subset). -/
def stripWs (cs : List Char) : List Char :=
  ((cs.dropWhile Char.isWhitespace).reverse.dropWhile Char.isWhitespace).reverse

/-- Python `int(s, 0)`: base prefix detection per integer-literal rules —
decimal, `0x` hex, `0o` octal, `0b` binary, underscores between digits, an
optional sign, surrounding whitespace; a non-zero decimal may not start
with `0`. -/
def pyIntBase0 (s : String) : Option Int :=
  let cs := stripWs s.data
  let signed : Bool × List Char :=
    match cs with
    | '+' :: r => (false, r)
    | '-' :: r => (true, r)
    | r => (false, r)
  let mag : Option Nat :=
    match signed.2 with
    | '0' :: c :: rest =>
      if c = 'x' || c = 'X' then parseAfterPrefix 16 rest
      else if c = 'o' || c = 'O' then parseAfterPrefix 8 rest
      else if c = 'b' || c = 'B' then parseAfterPrefix 2 rest
      else (parseUDigits 10 ('0' :: c :: rest)).bind fun v =>
        if v = 0 then some 0 else Option.none
    | cs' => parseUDigits 10 cs'
  mag.map fun m => if signed.1 then -(m : Int) else (m : Int)

/-- Does `('_'? digit)*` follow a valid digit run (used after the integer
part of a float)?  Returns the remainder after the run. -/
def skipUDigits : List Char → Option (List Char)
  | '_' :: c :: rest =>
    if (digitVal 10 c).isSome then skipUDigits rest else Option.none
  | ['_'] => Option.none
  | c :: rest =>
    if (digitVal 10 c).isSome then skipUDigits rest else some (c :: rest)
  | [] => some []

/-- Skip `digit ('_'? digit)*` (at least one digit); `none` when the list
does not start with a digit. -/
def skipDigits1 : List Char → Option (List Char)
  | c :: rest => if (digitVal 10 c).isSome then skipUDigits rest else Option.none
  | [] => Option.none

/-- Lower-case ASCII fold for the `inf`/`nan` keywords. -/
def lowerAscii (cs : List Char) : List Char := cs.map Char.toLower

/-- Does `float(s)` succeed in Python?  Grammar: optional sign; `inf`,
`infinity` or `nan` (case-insensitive); or a mantissa
(`digits [. digits?] | . digits`) with an optional `e`/`E` exponent with
optional sign; underscores between digits; surrounding whitespace.
The float's numeric value is never inspected by the compiler, so only
validity is modelled (the value is kept as its source text). -/
def pyFloatValid (s : String) : Bool :=
  let cs := stripWs s.data
  let body :=
    match cs with
    | '+' :: r => r
    | '-' :: r => r
    | r => r
  if lowerAscii body = "inf".data || lowerAscii body = "infinity".data ||
      lowerAscii body = "nan".data then true
  else
    let afterMantissa : Option (List Char) :=
      match body with
      | '.' :: rest => skipDigits1 rest
      | _ =>
        match skipDigits1 body with
        | some ('.' :: rest) =>
          match rest with
          | [] => some []
          | c :: _ =>
            if (digitVal 10 c).isSome then skipDigits1 rest else some rest
        | r => r
    match afterMantissa with
    | some [] => true
    | some ('e' :: rest) | some ('E' :: rest) =>
      let expBody :=
        match rest with
        | '+' :: r => r
        | '-' :: r => r
        | r => r
      (skipDigits1 expBody).isSome && ((skipDigits1 expBody).getD []) = []
    | _ => false

/-! ## `convert_str_to_value` and the compiled configuration -/

/-- A value produced by `convert_str_to_value`.  Floats are never inspected
by the compiler, so a `number` value is kept as its (validated) source
text. -/
inductive CfgVal where
  | str (s : String)
  | int (n : Int)
  | float (lit : String)
  | bool (b : Bool)
  | list (xs : List CfgVal)
deriving Repr

/-- A node of the nested `user_config` structure being built. -/
inductive Cfg where
  | val (v : CfgVal)
  | dict (fields : List (String × Cfg))
deriving Repr

/-- An exception escaping the config compiler: a plain Python exception
(`ValueError` is caught and re-raised as `UserError`, `KeyError`/
`TypeError`/`AttributeError` propagate) or an `argx.UserError`. -/
inductive CliExc where
  | py (e : PyExc)
  | user (e : UserError)
deriving Repr

/-- `int(str_value, 0)` as called by the integer branch: the parsed value,
or the `ValueError` CPython raises. -/
def intConvResult (strValue : String) : Except CliExc CfgVal :=
  match pyIntBase0 strValue with
  | some n => .ok (.int n)
  | Option.none =>
    .error (.py (.valueError
      ("invalid literal for int() with base 0: " ++ pyReprStr strValue)))

/-- `cli.convert_str_to_value(schema, str_value)`.  The branches test
`"string" in schema["type"]` etc. in source order; the `array` branch
splits on `","` and recurses on `schema["items"]` (raising `KeyError`
when absent); any other type raises a `UserError`. -/
def convertStrToValue : SchemaNode → String → Except CliExc CfgVal
  | .mk tf _ _ items, strValue =>
    if pyInType "string" tf then .ok (.str strValue)
    else if pyInType "integer" tf then intConvResult strValue
    else if pyInType "number" tf then
      if pyFloatValid strValue then .ok (.float strValue)
      else
        .error (.py (.valueError
          ("could not convert string to float: " ++ pyReprStr strValue)))
    else if pyInType "boolean" tf then
      if strValue = "1" then .ok (.bool true)
      else if strValue = "0" then .ok (.bool false)
      else if strValue = "true" then .ok (.bool true)
      else if strValue = "false" then .ok (.bool false)
      else .error (.user (.invalidBooleanValue strValue))
    else if pyInType "array" tf then
      match items with
      | some itemSchema =>
        ((pySplit ',' strValue).mapM (convertStrToValue itemSchema)).map CfgVal.list
      | Option.none => .error (.py (.keyError "items"))
    else .error (.user (.unsupportedValueType (pyReprType tf)))

/-- The insertion walk at the end of the compile loop:
`for part in parts[:-1]: conf.setdefault(part, {}); conf = conf[part]`,
then `conf[parts[-1]] = value`.  Descending through an existing non-dict
value raises (`TypeError` on the final assignment, `AttributeError` on a
further `setdefault`), exactly as in Python. -/
def setPath (cfg : List (String × Cfg)) (parts : List String) (v : CfgVal) :
    Except CliExc (List (String × Cfg)) :=
  match parts with
  | [] => .error (.py (.indexError "list index out of range"))
  | [last] => .ok (insertKV cfg last (.val v))
  | part :: rest =>
    match List.lookup part cfg with
    | some (.dict d) => (setPath d rest v).map fun d' => insertKV cfg part (.dict d')
    | some (.val _) =>
      match rest with
      | [_] => .error (.py (.typeError "object does not support item assignment"))
      | _ => .error (.py (.attributeError "object has no attribute 'setdefault'"))
    | Option.none => (setPath [] rest v).map fun d' => insertKV cfg part (.dict d')

/-- The exact-then-generic schema lookup of `create_user_config`:
`options.get(key)`, else `options.get(".".join(key.split(".")[:-1] + ["KEY"]))`.
(A stored schema node always has a non-empty dict representation, so
Python's `if not opt_schema` is `None`-ness here.) -/
def genericKey (key : String) : String :=
  joinSep "." ((pySplit '.' key).dropLast ++ ["KEY"])

def resolveOpt (options : List (String × SchemaNode)) (key : String) :
    Option SchemaNode :=
  match List.lookup key options with
  | some s => some s
  | Option.none => List.lookup (genericKey key) options

/-- One iteration of the `create_user_config` loop: split the assignment
on the first `=`, resolve the option schema, coerce the value (re-raising
`ValueError` as `UserError`), and insert along the dotted path. -/
def compileStep (options : List (String × SchemaNode))
    (cfg : List (String × Cfg)) (keyValue : String) :
    Except CliExc (List (String × Cfg)) :=
  if keyValue.data.contains '=' then
    let key := beforeFirst '=' keyValue
    let value := afterFirst '=' keyValue
    match resolveOpt options key with
    | Option.none =>
      .error (.user (.unsupportedOption key (options.map Prod.fst)))
    | some optSchema =>
      match convertStrToValue optSchema value with
      | .error (.py (.valueError msg)) =>
        .error (.user (.invalidValue keyValue msg))
      | .error e => .error e
      | .ok v => setPath cfg (pySplit '.' key) v
  else .error (.user (.invalidConfigValue keyValue))

/-- The assignment loop of `cli.AivenCLI.create_user_config` (the service
type fetch and `user_config_schema` extraction that precede it belong to
the excluded command/transport layer; the loop receives the flattened
`options` table and the `"path=value"` strings).  An empty assignment list
short-circuits to an empty config. -/
def createUserConfig (options : List (String × SchemaNode))
    (configVars : List String) : Except CliExc (List (String × Cfg)) :=
  match configVars with
  | [] => .ok []
  | _ => configVars.foldlM (compileStep options) []

/-! ## `collect_user_config_options` -/

mutual
/-- Syntactic size of a schema tree (an executable bound on the recursion
depth of the flattening, used as fuel below). -/
def schemaSize : SchemaNode → Nat
  | .mk _ props pats items => 1 + schemaSizeList props + schemaSizeList pats + schemaSizeOpt items

def schemaSizeList : List (String × SchemaNode) → Nat
  | [] => 0
  | p :: rest => 1 + schemaSize p.2 + schemaSizeList rest

def schemaSizeOpt : Option SchemaNode → Nat
  | Option.none => 0
  | some s => 1 + schemaSize s
end

theorem schemaSize_pos (node : SchemaNode) : 1 ≤ schemaSize node := by
  obtain ⟨tf, props, pats, items⟩ := node
  show 1 ≤ 1 + _ + _ + _
  omega

theorem schemaSizeList_mem : ∀ (l : List (String × SchemaNode)) (p : String × SchemaNode),
    p ∈ l → schemaSize p.2 < 1 + schemaSizeList l := by
  intro l
  induction l with
  | nil => intro p h; simp at h
  | cons hd rest ih =>
    intro p h
    have hexp : schemaSizeList (hd :: rest) = 1 + schemaSize hd.2 + schemaSizeList rest := rfl
    rcases List.mem_cons.1 h with h' | h'
    · subst h'
      omega
    · have := ih p h'
      omega



/-- `cli.AivenCLI.collect_user_config_options(obj_def, prefix)`, indexed by
recursion fuel so that the equations hold definitionally (the wrapper below
passes `sizeOf obj_def`, which strictly exceeds the recursion depth — each
recursive call descends into a strict subterm — so the fuel-exhausted
branch is unreachable; `collectFuel_irrel` proves the result independent of
any sufficient fuel).

The Python iterates `sorted(obj_def.get("properties", {}).items())` and
then `sorted(obj_def.get("patternProperties", {}).values())`; sorting two
or more pattern-property sub-schemas compares dicts and raises `TypeError`.
For termination the per-property contributions (leaf entry, or recursive
flattening for an object-typed property) are computed in source order and
sorted by property name before being merged — each contribution is
independent of its siblings, so the merged dict and the first raised error
(first in sorted order) are identical to the Python's. -/
def collectFuel : Nat → SchemaNode → String → Except CliExc (List (String × SchemaNode))
  | 0, _, _ => .error (.py (.typeError "maximum recursion depth exceeded"))
  | n + 1, .mk _ props pats _, pre =>
    let contribs := props.map fun ps =>
      (ps.1,
        if ps.2.typeField = TypeField.s "object" then
          collectFuel n ps.2 (if pre = "" then ps.1 else pre ++ "." ++ ps.1)
        else .ok [((if pre = "" then ps.1 else pre ++ "." ++ ps.1), ps.2)])
    match (sortByKeyStr contribs).foldlM
        (fun opts c => c.2.map (updateDict opts))
        ([] : List (String × SchemaNode)) with
    | .error e => .error e
    | .ok opts =>
      match pats with
      | [] => .ok opts
      | [(_, spec)] =>
        let fullName := if pre = "" then "KEY" else pre ++ ".KEY"
        if spec.typeField = TypeField.s "object" then
          (collectFuel n spec fullName).map (updateDict opts)
        else .ok (insertKV opts fullName spec)
      | _ =>
        .error (.py (.typeError
          "'<' not supported between instances of 'dict' and 'dict'"))

/-- `collect_user_config_options` itself. -/
def collectUserConfigOptions (objDef : SchemaNode) (prefix' : String) :
    Except CliExc (List (String × SchemaNode)) :=
  collectFuel (schemaSize objDef) objDef prefix'

/-! ## Definitions supporting the claims -/

/-- The fields of a record when it is a mapping (empty otherwise). -/
def Value.objFields : Value → List (String × Value)
  | .obj fs => fs
  | _ => []

/-- The flattened field names contributed by one record's fields, after
dropping excluded top-level keys. -/
def itemKeys (drop : List String) (fields : List (String × Value)) : List String :=
  (fields.filter fun kv => !drop.contains kv.1).flatMap
    fun kv => (iterValues kv.1 kv.2).map Prod.fst

/-- All flattened field names over all records (with multiplicity). -/
def allFieldKeys (drop : List String) (result : List Value) : List String :=
  result.flatMap fun v => itemKeys drop v.objFields

/-- The formatted rows of a table call (`formatted_values`). -/
def tableRows (drop : List String) (result : List Value) : List Row :=
  (buildRows drop (result.map Value.objFields)).1

/-- The accumulated column widths of a table call (`widths`). -/
def tableWidths (drop : List String) (result : List Value) : Widths :=
  (buildRows drop (result.map Value.objFields)).2

/-- The resolved horizontal columns with their widths, assuming every
column is present in `widths`. -/
def resolvedHW (drop : List String) (result : List Value) (h : List String) :
    List (String × Nat) :=
  h.map fun f => (f, (List.lookup f (tableWidths drop result)).getD 0)

/-- Is a flattened field matched by any vertical pattern of the layout? -/
def matchedByAnyVertical (verticals : List (List String)) (field : String) : Bool :=
  verticals.any fun vfRow => vfRow.any fun vf => fnmatchB field vf

/-- The detail-line alignment width as §4.1 of the spec words it, but for
the last record only: the maximum de-prefixed-name length over the fields
of the last record matched by some vertical pattern. -/
def specDetailWidthLastRecord (rows : List Row) (verticals : List (List String)) : Nat :=
  pyMax ((((rows.getLast?).getD []).filter
    fun kv => matchedByAnyVertical verticals kv.1).map
      fun kv => (afterFirst '.' kv.1).length)

/-- The detail-line alignment width exactly as the spec words it: the
maximum de-prefixed-name length over all fields of *all* records matched
by some vertical pattern. -/
def specDetailWidthAllRecords (rows : List Row) (verticals : List (List String)) : Nat :=
  pyMax ((rows.flatMap fun row => row.filter
    fun kv => matchedByAnyVertical verticals kv.1).map
      fun kv => (afterFirst '.' kv.1).length)

/-- Does the flattening traversal visit a node carrying two or more
`patternProperties` entries?  Visited nodes are the root, object-typed
named properties, and the object-typed single pattern property,
recursively.  Fuel-indexed like `collectFuel`; the wrapper passes
`sizeOf node`. -/
def hasVisitedMultiPatternFuel : Nat → SchemaNode → Bool
  | 0, _ => false
  | n + 1, .mk _ props pats _ =>
    (props.any fun ps =>
      decide (ps.2.typeField = TypeField.s "object") &&
        hasVisitedMultiPatternFuel n ps.2) ||
    (match pats with
     | [] => false
     | [(_, spec)] =>
       decide (spec.typeField = TypeField.s "object") &&
         hasVisitedMultiPatternFuel n spec
     | _ => true)

def hasVisitedMultiPattern (node : SchemaNode) : Bool :=
  hasVisitedMultiPatternFuel (schemaSize node) node

/-- Does an `Except` hold an error? -/
def isErr {ε α : Type} : Except ε α → Bool
  | .error _ => true
  | .ok _ => false

/-- The well-formedness condition under which `print_table` cannot raise:
every record is a mapping, and the horizontal row of the layout (the
synthesized sorted row when the layout is absent) is non-empty with every
column appearing among some record's flattened fields. -/
def GoodTableInput (result : List Value) (drop : List String)
    (layout : TableLayout) : Prop :=
  (∀ v ∈ result, v.isObj = true) ∧
  match layout with
  | .noLayout => allFieldKeys drop result ≠ []
  | .flat fs => fs ≠ [] ∧ ∀ f ∈ fs, f ∈ allFieldKeys drop result
  | .nested rows =>
    rows ≠ [] ∧ ∀ f ∈ rows.headI, f ∈ allFieldKeys drop result

/-! ## Generic lemmas: strings, association lists, sorting -/

theorem isPrefixOf_append_self (l t : List Char) : l.isPrefixOf (l ++ t) = true := by
  induction l with
  | nil => simp [List.isPrefixOf]
  | cons c cs ih => simp [List.isPrefixOf, ih]

theorem pyEndsWith_append (a b : String) : pyEndsWith (a ++ b) b = true := by
  show (b.data.reverse.isPrefixOf (a ++ b).data.reverse) = true
  rw [String.data_append, List.reverse_append]
  exact isPrefixOf_append_self _ _

theorem ne_empty_of_endsWith_time (k : String) (h : pyEndsWith k "_time" = true) :
    k ≠ "" := by
  intro he
  subst he
  revert h
  decide

theorem takeWhile_stops (p : Char → Bool) :
    ∀ (l1 : List Char) (x : Char) (l2 : List Char),
      (∀ c ∈ l1, p c = true) → p x = false →
      (l1 ++ x :: l2).takeWhile p = l1 := by
  intro l1
  induction l1 with
  | nil => intro x l2 _ hx; simp [List.takeWhile, hx]
  | cons c cs ih =>
    intro x l2 hall hx
    have hc : p c = true := hall c (by simp)
    simp only [List.cons_append, List.takeWhile_cons, hc, if_true]
    rw [ih x l2 (fun d hd => hall d (by simp [hd])) hx]

theorem dropWhile_stops (p : Char → Bool) :
    ∀ (l1 : List Char) (x : Char) (l2 : List Char),
      (∀ c ∈ l1, p c = true) → p x = false →
      (l1 ++ x :: l2).dropWhile p = x :: l2 := by
  intro l1
  induction l1 with
  | nil => intro x l2 _ hx; simp [List.dropWhile, hx]
  | cons c cs ih =>
    intro x l2 hall hx
    have hc : p c = true := hall c (by simp)
    simp only [List.cons_append, List.dropWhile_cons, hc, if_true]
    exact ih x l2 (fun d hd => hall d (by simp [hd])) hx

theorem contains_append_mid (l1 : List Char) (x : Char) (l2 : List Char) :
    (l1 ++ x :: l2).contains x = true := by
  simp [List.contains]

theorem lookup_isSome_iff {α : Type} (a : String) :
    ∀ (l : List (String × α)), (List.lookup a l).isSome = true ↔ a ∈ l.map Prod.fst := by
  intro l
  induction l with
  | nil => simp [List.lookup]
  | cons kv rest ih =>
    obtain ⟨k, v⟩ := kv
    by_cases hk : a = k
    · subst hk; simp [List.lookup]
    · simp [List.lookup, hk, ih, beq_false_of_ne hk]

theorem lookup_mem {α : Type} (a : String) (b : α) :
    ∀ (l : List (String × α)), List.lookup a l = some b → (a, b) ∈ l := by
  intro l
  induction l with
  | nil => simp [List.lookup]
  | cons kv rest ih =>
    obtain ⟨k, v⟩ := kv
    by_cases hk : a = k
    · subst hk
      simp [List.lookup]
      intro h
      exact Or.inl h.symm
    · simp [List.lookup, beq_false_of_ne hk]
      intro h
      exact Or.inr (by simpa using ih h)

theorem mem_insertKV {α : Type} (p : String × α) (k : String) (v : α) :
    ∀ (l : List (String × α)), p ∈ insertKV l k v → p = (k, v) ∨ p ∈ l := by
  intro l
  induction l with
  | nil => simp [insertKV]
  | cons kv rest ih =>
    obtain ⟨k', v'⟩ := kv
    by_cases hk : k' = k
    · subst hk
      simp [insertKV]
      rintro (h | h)
      · exact Or.inl (by simp [h])
      · exact Or.inr (Or.inr h)
    · simp [insertKV, hk]
      rintro (h | h)
      · exact Or.inr (Or.inl (by simp [h]))
      · rcases ih h with h' | h'
        · exact Or.inl h'
        · exact Or.inr (Or.inr h')

theorem keys_insertKV {α : Type} (b k : String) (v : α) :
    ∀ (l : List (String × α)),
      b ∈ (insertKV l k v).map Prod.fst ↔ b = k ∨ b ∈ l.map Prod.fst := by
  intro l
  induction l with
  | nil => simp [insertKV]
  | cons kv rest ih =>
    obtain ⟨k', v'⟩ := kv
    by_cases hk : k' = k
    · subst hk
      simp [insertKV]
    · simp [insertKV, hk, ih]
      tauto

theorem mem_insertSortedStr (a x : String) :
    ∀ (l : List String), a ∈ insertSortedStr x l ↔ a = x ∨ a ∈ l := by
  intro l
  induction l with
  | nil => simp [insertSortedStr]
  | cons y ys ih =>
    by_cases hy : strLt y x = true
    · simp [insertSortedStr, hy, ih]
      tauto
    · simp [insertSortedStr, hy]

theorem mem_sortStrings (a : String) :
    ∀ (l : List String), a ∈ sortStrings l ↔ a ∈ l := by
  intro l
  induction l with
  | nil => simp [sortStrings]
  | cons x xs ih =>
    show a ∈ insertSortedStr x (sortStrings xs) ↔ _
    rw [mem_insertSortedStr]
    simp [ih]

theorem sortStrings_eq_nil (l : List String) :
    sortStrings l = [] ↔ l = [] := by
  constructor
  · intro h
    cases l with
    | nil => rfl
    | cons x xs =>
      exfalso
      have : x ∈ sortStrings (x :: xs) := (mem_sortStrings x _).2 (by simp)
      rw [h] at this
      simp at this
  · intro h; subst h; rfl

theorem mem_insertSortedKV {α : Type} (p x : String × α) :
    ∀ (l : List (String × α)), p ∈ insertSortedKV x l ↔ p = x ∨ p ∈ l := by
  intro l
  induction l with
  | nil => simp [insertSortedKV]
  | cons y ys ih =>
    by_cases hy : strLt y.1 x.1 = true
    · simp [insertSortedKV, hy, ih]
      tauto
    · simp [insertSortedKV, hy]

theorem mem_sortByKeyStr {α : Type} (p : String × α) :
    ∀ (l : List (String × α)), p ∈ sortByKeyStr l ↔ p ∈ l := by
  intro l
  induction l with
  | nil => simp [sortByKeyStr]
  | cons x xs ih =>
    show p ∈ insertSortedKV x (sortByKeyStr xs) ↔ _
    rw [mem_insertSortedKV]
    simp [ih]

/-! ## Lemmas about joining, infixes and maxima -/

theorem listIsInfix_of_infix :
    ∀ (l2 l1 : List Char), l1 <:+: l2 → listIsInfix l1 l2 = true := by
  intro l2
  induction l2 with
  | nil =>
    intro l1 h
    rw [List.infix_nil] at h
    subst h
    rfl
  | cons c cs ih =>
    intro l1 h
    obtain ⟨s, t, hst⟩ := h
    cases s with
    | nil =>
      simp at hst
      have h1 : l1.isPrefixOf (c :: cs) = true := by
        rw [← hst]; exact isPrefixOf_append_self l1 t
      show (l1.isPrefixOf (c :: cs) || listIsInfix l1 cs) = true
      simp [h1]
    | cons x s' =>
      simp at hst
      have h2 : l1 <:+: cs := ⟨s', t, by rw [List.append_assoc]; exact hst.2⟩
      show (l1.isPrefixOf (c :: cs) || listIsInfix l1 cs) = true
      simp [ih l1 h2]

theorem foldl_append_extends (sep : String) :
    ∀ (xs : List String) (acc : String),
      ∃ t, xs.foldl (fun a y => a ++ sep ++ y) acc = acc ++ t := by
  intro xs
  induction xs with
  | nil => intro acc; exact ⟨"", by simp⟩
  | cons x xs' ih =>
    intro acc
    obtain ⟨t, ht⟩ := ih (acc ++ sep ++ x)
    exact ⟨sep ++ x ++ t, by rw [List.foldl_cons, ht]; simp [String.append_assoc]⟩

theorem infix_foldl_join (sep : String) :
    ∀ (xs : List String) (acc p : String), p ∈ xs →
      p.data <:+: (xs.foldl (fun a y => a ++ sep ++ y) acc).data := by
  intro xs
  induction xs with
  | nil => intro acc p h; simp at h
  | cons x xs' ih =>
    intro acc p h
    rcases List.mem_cons.1 h with h' | h'
    · subst h'
      obtain ⟨t, ht⟩ := foldl_append_extends sep xs' (acc ++ sep ++ p)
      rw [List.foldl_cons, ht]
      exact ⟨(acc ++ sep).data, t.data, by simp [String.data_append]⟩
    · exact ih _ p h'

theorem infix_joinSep (sep p : String) (parts : List String) (h : p ∈ parts) :
    p.data <:+: (joinSep sep parts).data := by
  cases parts with
  | nil => simp at h
  | cons x xs =>
    rcases List.mem_cons.1 h with h' | h'
    · subst h'
      obtain ⟨t, ht⟩ := foldl_append_extends sep xs p
      rw [joinSep, ht]
      exact ⟨[], t.data, by simp [String.data_append]⟩
    · exact infix_foldl_join sep xs x p h'

theorem foldl_max_init : ∀ (l : List Nat) (a : Nat),
    l.foldl Nat.max a = Nat.max a (l.foldl Nat.max 0) := by
  intro l
  induction l with
  | nil => intro a; simp
  | cons x xs ih =>
    intro a
    rw [List.foldl_cons, List.foldl_cons, ih (Nat.max a x), ih (Nat.max 0 x)]
    simp [Nat.zero_max, ← Nat.max_assoc]

theorem le_pyMax_of_mem (x : Nat) : ∀ (l : List Nat), x ∈ l → x ≤ pyMax l := by
  intro l
  induction l with
  | nil => simp
  | cons y ys ih =>
    intro h
    show x ≤ (y :: ys).foldl Nat.max 0
    rw [List.foldl_cons, foldl_max_init]
    rcases List.mem_cons.1 h with h' | h'
    · subst h'
      exact le_trans (Nat.le_max_right 0 x) (Nat.le_max_left _ _)
    · exact le_trans (ih h') (Nat.le_max_right (Nat.max 0 y) (pyMax ys))

theorem pyMax_le (b : Nat) : ∀ (l : List Nat), (∀ x ∈ l, x ≤ b) → pyMax l ≤ b := by
  intro l
  induction l with
  | nil => intro _; simp [pyMax]
  | cons y ys ih =>
    intro h
    show (y :: ys).foldl Nat.max 0 ≤ b
    rw [List.foldl_cons, foldl_max_init]
    have h1 : y ≤ b := h y (by simp)
    have h2 : pyMax ys ≤ b := ih fun x hx => h x (by simp [hx])
    exact Nat.max_le.2 ⟨Nat.max_le.2 ⟨Nat.zero_le b, h1⟩, h2⟩

/-! ## Plain JSON strings and `format_item` on strings -/

/-- ASCII decimal digit (the digit shape of the modelled timestamps). -/
def isAsciiDigit (c : Char) : Bool := 48 ≤ c.val.toNat && c.val.toNat ≤ 57

/-- A character that `json.dumps` renders as itself. -/
def jsonPlainChar (c : Char) : Bool :=
  (0x20 ≤ c.val.toNat : Bool) && (c.val.toNat ≤ 0x7e : Bool) &&
    !(c = '"' : Bool) && !(c = '\\' : Bool)

theorem jsonEscapeChar_plain (c : Char) (h : jsonPlainChar c = true) :
    jsonEscapeChar c = String.mk [c] := by
  simp [jsonPlainChar] at h
  obtain ⟨⟨⟨h1, h2⟩, h3⟩, h4⟩ := h
  have hn : ¬ c = '\n' := fun he => by subst he; exact absurd h1 (by decide)
  have hr : ¬ c = '\r' := fun he => by subst he; exact absurd h1 (by decide)
  have ht : ¬ c = '\t' := fun he => by subst he; exact absurd h1 (by decide)
  have h8 : ¬ c.val.toNat = 8 := by omega
  have h12 : ¬ c.val.toNat = 12 := by omega
  have hlt : ¬ c.val.toNat < 0x20 := by omega
  simp [jsonEscapeChar, h3, h4, hn, hr, ht, h8, h12, hlt, h2]

theorem concatAll_map_singleton :
    ∀ (l : List Char), concatAll (l.map fun c => String.mk [c]) = String.mk l := by
  intro l
  induction l with
  | nil => rfl
  | cons c cs ih =>
    show String.mk [c] ++ concatAll (cs.map fun c => String.mk [c]) = String.mk (c :: cs)
    rw [ih]
    rfl

theorem jsonDumpsStr_plain (s : String) (h : ∀ c ∈ s.data, jsonPlainChar c = true) :
    jsonDumpsStr s = "\"" ++ s ++ "\"" := by
  unfold jsonDumpsStr
  rw [List.map_congr_left fun c hc => jsonEscapeChar_plain c (h c hc)]
  rw [concatAll_map_singleton]

theorem strRender_plain (s : String) (h : ∀ c ∈ s.data, jsonPlainChar c = true) :
    strRender s = s := by
  unfold strRender
  rw [jsonDumpsStr_plain s h]
  simp

theorem keyEndsTime_some (k : String) (h : pyEndsWith k "_time" = true) :
    keyEndsTime (some k) = true := by
  have hne := ne_empty_of_endsWith_time k h
  simp [keyEndsTime, hne, h]

theorem formatItem_str (k : Option String) (s : String) :
    formatItem k (.str s) =
      strRender (if keyEndsTime k && pyEndsWith s "Z" && s.data.contains '.'
        then beforeFirst '.' s ++ "Z" else s) := rfl

theorem formatItemsNone_eq_map :
    ∀ (xs : List Value), formatItemsNone xs = xs.map (formatItem Option.none) := by
  intro xs
  induction xs with
  | nil => rfl
  | cons v vs ih => simp [formatItemsNone, ih]

theorem jsonPlainChar_of_range (c : Char) (h1 : 32 ≤ c.val.toNat)
    (h2 : c.val.toNat ≤ 126) (h3 : c.val.toNat ≠ 34) (h4 : c.val.toNat ≠ 92) :
    jsonPlainChar c = true := by
  have hq : ¬ c = '"' := fun he => by subst he; simp at h3
  have hb : ¬ c = '\\' := fun he => by subst he; simp at h4
  simp [jsonPlainChar, h1, h2, hq, hb]

theorem jsonPlainChar_of_digit (c : Char) (h : isAsciiDigit c = true) :
    jsonPlainChar c = true := by
  simp [isAsciiDigit] at h
  exact jsonPlainChar_of_range c (by omega) (by omega) (by omega) (by omega)

theorem asciiDigit_ne_dot (c : Char) (h : isAsciiDigit c = true) : ¬ c = '.' := by
  intro he
  subst he
  exact absurd h (by decide)

/-! ## Claims C4 and C10: timestamp truncation in `format_item` -/

/-- **C4**: a string value associated with a name ending in `_time` that is
an ISO-8601 UTC timestamp with fractional seconds (digit/`-` date, `T`,
digit/`:` time, `.`, digits, `Z`) is truncated to whole seconds — everything
between the `.` and the trailing `Z` is dropped and `Z` re-appended — and
such a timestamp without a fractional part renders unchanged. -/
theorem C4_timestamp_truncation :
    (∀ k d t f : String, pyEndsWith k "_time" = true →
      (∀ c ∈ d.data, isAsciiDigit c = true ∨ c = '-') →
      (∀ c ∈ t.data, isAsciiDigit c = true ∨ c = ':') →
      f ≠ "" → (∀ c ∈ f.data, isAsciiDigit c = true) →
      formatItem (some k) (.str (d ++ "T" ++ t ++ "." ++ f ++ "Z")) =
        d ++ "T" ++ t ++ "Z") ∧
    (∀ k d t : String, pyEndsWith k "_time" = true →
      (∀ c ∈ d.data, isAsciiDigit c = true ∨ c = '-') →
      (∀ c ∈ t.data, isAsciiDigit c = true ∨ c = ':') →
      formatItem (some k) (.str (d ++ "T" ++ t ++ "Z")) = d ++ "T" ++ t ++ "Z") := by
  constructor
  · intro k d t f hk hd ht _hf _hfd
    have hdata : (d ++ "T" ++ t ++ "." ++ f ++ "Z").data =
        (d.data ++ 'T' :: t.data) ++ '.' :: (f.data ++ ['Z']) := by
      simp [String.data_append]
    have hket := keyEndsTime_some k hk
    have hz : pyEndsWith (d ++ "T" ++ t ++ "." ++ f ++ "Z") "Z" = true :=
      pyEndsWith_append (d ++ "T" ++ t ++ "." ++ f) "Z"
    have hcont : (d ++ "T" ++ t ++ "." ++ f ++ "Z").data.contains '.' = true := by
      rw [hdata]; exact contains_append_mid _ '.' _
    rw [formatItem_str]
    rw [hket, hz, hcont]
    have hbf : beforeFirst '.' (d ++ "T" ++ t ++ "." ++ f ++ "Z") = d ++ "T" ++ t := by
      unfold beforeFirst
      rw [hdata]
      rw [takeWhile_stops _ (d.data ++ 'T' :: t.data) '.' (f.data ++ ['Z'])
        (by
          intro c hc
          rcases List.mem_append.1 hc with hc' | hc'
          · rcases hd c hc' with h' | h'
            · simp [asciiDigit_ne_dot c h']
            · subst h'; decide
          · rcases List.mem_cons.1 hc' with hc'' | hc''
            · subst hc''; decide
            · rcases ht c hc'' with h' | h'
              · simp [asciiDigit_ne_dot c h']
              · subst h'; decide)
        (by decide)]
      have hdt : (d ++ "T" ++ t).data = d.data ++ 'T' :: t.data := by
        simp [String.data_append]
      rw [← hdt]
    simp only [Bool.and_self, if_true]
    rw [hbf]
    apply strRender_plain
    intro c hc
    have hmem : c ∈ d.data ∨ c = 'T' ∨ c ∈ t.data ∨ c = 'Z' := by
      simpa [String.data_append] using hc
    rcases hmem with h' | h' | h' | h'
    · rcases hd c h' with h'' | h''
      · exact jsonPlainChar_of_digit c h''
      · subst h''; decide
    · subst h'; decide
    · rcases ht c h' with h'' | h''
      · exact jsonPlainChar_of_digit c h''
      · subst h''; decide
    · subst h'; decide
  · intro k d t hk hd ht
    have hd' : ¬ ('.' ∈ d.data) := fun hm => by
      rcases hd '.' hm with h' | h'
      · exact absurd h' (by decide)
      · exact absurd h' (by decide)
    have ht' : ¬ ('.' ∈ t.data) := fun hm => by
      rcases ht '.' hm with h' | h'
      · exact absurd h' (by decide)
      · exact absurd h' (by decide)
    have hnc : (d ++ "T" ++ t ++ "Z").data.contains '.' = false := by
      simp [String.data_append, List.contains, hd', ht']
    rw [formatItem_str]
    rw [hnc]
    simp only [Bool.and_false, if_false]
    apply strRender_plain
    intro c hc
    have hmem : c ∈ d.data ∨ c = 'T' ∨ c ∈ t.data ∨ c = 'Z' := by
      simpa [String.data_append] using hc
    rcases hmem with h' | h' | h' | h'
    · rcases hd c h' with h'' | h''
      · exact jsonPlainChar_of_digit c h''
      · subst h''; decide
    · subst h'; decide
    · rcases ht c h' with h'' | h''
      · exact jsonPlainChar_of_digit c h''
      · subst h''; decide
    · subst h'; decide

/-- Witness for C4 at the spec's own example. -/
theorem C4_witness :
    formatItem (some "create_time") (.str "2020-01-01T00:00:00.123456Z") =
        "2020-01-01T00:00:00Z" ∧
    formatItem (some "create_time") (.str "2020-01-01T00:00:00Z") =
        "2020-01-01T00:00:00Z" := by
  constructor
  · exact C4_timestamp_truncation.1 "create_time" "2020-01-01" "00:00:00" "123456"
      (by decide) (by decide) (by decide) (by decide) (by decide)
  · exact C4_timestamp_truncation.2 "create_time" "2020-01-01" "00:00:00"
      (by decide) (by decide) (by decide)

/-- **C10**: truncation is decided by key name and coarse shape only — any
string whose key ends in `_time`, ends in `Z` and contains a `.` is cut at
its first `.` with `Z` re-appended, even if it is not ISO-8601; scalars
formatted without a key (top-level list-mode elements via `print_list`,
and elements inside sequence values) are never truncated. -/
theorem C10_truncation_conditions :
    (∀ k s : String, pyEndsWith k "_time" = true → pyEndsWith s "Z" = true →
      s.data.contains '.' = true →
      formatItem (some k) (.str s) = strRender (beforeFirst '.' s ++ "Z")) ∧
    (∀ s : String, formatItem Option.none (.str s) = strRender s) ∧
    (∀ (k : Option String) (xs : List Value),
      formatItem k (.list xs) = joinSep ", " (xs.map (formatItem Option.none))) ∧
    (∀ result : List Value, printList result = result.map (formatItem Option.none)) := by
  refine ⟨?_, ?_, ?_, ?_⟩
  · intro k s hk hz hc
    rw [formatItem_str, keyEndsTime_some k hk, hz, hc]
    simp only [Bool.and_self, if_true]
  · intro s
    rw [formatItem_str]
    simp [keyEndsTime]
  · intro k xs
    show joinSep ", " (formatItemsNone xs) = _
    rw [formatItemsNone_eq_map]
  · intro result
    rfl

/-- Witness for C10 on a non-ISO-8601 string: cut at the *first* dot. -/
theorem C10_witness :
    formatItem (some "x_time") (.str "ab.cd.Z") = "abZ" ∧
    formatItem Option.none (.str "ab.cd.Z") = "ab.cd.Z" := by
  constructor
  · rw [C10_truncation_conditions.1 "x_time" "ab.cd.Z" (by decide) (by decide) (by decide)]
    rfl
  · rw [C10_truncation_conditions.2.1 "ab.cd.Z"]
    rfl

/-! ## Claim C7: integer option parsing -/

/-- **C7**: integer-typed options are parsed with `int(value, 0)` —
decimal, `0x` hex and `0o` octal all accepted, non-numeric input turned
into a `ValueError` (surfaced as the `InvalidValue` user error by the
compile loop) — and compiling `max_connections=0x10` against the schema
`{"properties": {"max_connections": {"type": "integer"}}}` yields
`{"max_connections": 16}`. -/
theorem C7_integer_coercion :
    (∀ (tf : TypeField) (props pats : List (String × SchemaNode))
        (items : Option SchemaNode) (s : String),
      pyInType "string" tf = false → pyInType "integer" tf = true →
      convertStrToValue (.mk tf props pats items) s =
        (match pyIntBase0 s with
         | some n => .ok (.int n)
         | Option.none =>
           .error (.py (.valueError
             ("invalid literal for int() with base 0: " ++ pyReprStr s))))) ∧
    pyIntBase0 "123" = some 123 ∧ pyIntBase0 "0x1f" = some 31 ∧
    pyIntBase0 "0o644" = some 420 ∧ pyIntBase0 "abc" = Option.none ∧
    collectUserConfigOptions
        (.mk (.s "object") [("max_connections", leafSchema "integer")] [] Option.none)
        "" = .ok [("max_connections", leafSchema "integer")] ∧
    createUserConfig [("max_connections", leafSchema "integer")]
        ["max_connections=0x10"] = .ok [("max_connections", .val (.int 16))] := by
  refine ⟨?_, rfl, rfl, rfl, rfl, rfl, rfl⟩
  intro tf props pats items s h1 h2
  rw [convertStrToValue.eq_def]
  simp only [h1, h2, Bool.false_eq_true, if_false, if_true]
  rfl

/-- Witness for C7's coercion equation at concrete inputs. -/
theorem C7_witness :
    convertStrToValue (leafSchema "integer") "0x10" = .ok (.int 16) ∧
    convertStrToValue (leafSchema "integer") "zz" =
      .error (.py (.valueError "invalid literal for int() with base 0: 'zz'")) := by
  constructor
  · rw [show leafSchema "integer" = SchemaNode.mk (.s "integer") [] [] Option.none from rfl]
    rw [C7_integer_coercion.1 (.s "integer") [] [] Option.none "0x10"
      (by decide) (by decide)]
    rfl
  · rw [show leafSchema "integer" = SchemaNode.mk (.s "integer") [] [] Option.none from rfl]
    rw [C7_integer_coercion.1 (.s "integer") [] [] Option.none "zz"
      (by decide) (by decide)]
    rfl

/-! ## Claim C2: option path lookup with `KEY` fallback -/

theorem joinSep_eq_empty (parts : List String) (h : joinSep ", " parts = "") :
    ∀ p ∈ parts, p = "" := by
  intro p hp
  cases parts with
  | nil => simp at hp
  | cons x xs =>
    cases xs with
    | nil =>
      have hx : x = "" := h
      rcases List.mem_cons.1 hp with h' | h'
      · rw [h', hx]
      · simp at h'
    | cons y rest =>
      exfalso
      obtain ⟨t, ht⟩ := foldl_append_extends ", " rest (x ++ ", " ++ y)
      have hj : joinSep ", " (x :: y :: rest) = x ++ ", " ++ y ++ t := by
        rw [joinSep, List.foldl_cons]
        exact ht
      rw [h] at hj
      have := congrArg String.length hj
      simp [String.length_append] at this
      have h2 : (", " : String).length = 2 := rfl
      omega

theorem infix_append_left_str {l r : List Char} (s : List Char) (h : l <:+: r) :
    l <:+: s ++ r := by
  obtain ⟨a, b, hr⟩ := h
  exact ⟨s ++ a, b, by rw [← hr]; simp⟩

theorem createUserConfig_single (options : List (String × SchemaNode)) (kv : String) :
    createUserConfig options [kv] = compileStep options [] kv := by
  show List.foldlM (compileStep options) [] [kv] = _
  cases hstep : compileStep options [] kv <;>
    simp [List.foldlM, hstep]

/-- **C2**: each assignment's path is looked up exactly in the flattened
schema, then — on a miss — with the final dotted segment replaced by the
literal `KEY`; a double miss aborts with the unsupported-option error,
whose payload carries every known option path and whose message lists
them (or says `none` for an empty schema). -/
theorem C2_option_lookup :
    ∀ (options : List (String × SchemaNode)) (k v : String),
      ¬ ('=' ∈ k.data) →
      (∀ sch, List.lookup k options = some sch → resolveOpt options k = some sch) ∧
      (List.lookup k options = Option.none →
        resolveOpt options k = List.lookup (genericKey k) options) ∧
      (∀ sch, resolveOpt options k = some sch →
        createUserConfig options [k ++ "=" ++ v] =
          (match convertStrToValue sch v with
           | .error (.py (.valueError msg)) =>
             .error (.user (.invalidValue (k ++ "=" ++ v) msg))
           | .error e => .error e
           | .ok val => setPath [] (pySplit '.' k) val)) ∧
      (resolveOpt options k = Option.none →
        createUserConfig options [k ++ "=" ++ v] =
          .error (.user (.unsupportedOption k (options.map Prod.fst)))) ∧
      (options.map Prod.fst = [] →
        (UserError.unsupportedOption k (options.map Prod.fst)).message =
          "Unsupported option " ++ pyReprStr k ++ ", available options: none") ∧
      (∀ p ∈ options.map Prod.fst,
        listIsInfix p.data
          ((UserError.unsupportedOption k (options.map Prod.fst)).message).data
          = true) := by
  intro options k v hk
  have hdata : (k ++ "=" ++ v).data = k.data ++ '=' :: v.data := by
    simp [String.data_append]
  have hcont : (k ++ "=" ++ v).data.contains '=' = true := by
    rw [hdata]; exact contains_append_mid _ '=' _
  have hkne : ∀ c ∈ k.data, (c ≠ '=' : Bool) = true := by
    intro c hc
    simp
    intro he
    subst he
    exact hk hc
  have hbf : beforeFirst '=' (k ++ "=" ++ v) = k := by
    unfold beforeFirst
    rw [hdata, takeWhile_stops _ k.data '=' v.data hkne (by decide)]
  have haf : afterFirst '=' (k ++ "=" ++ v) = v := by
    unfold afterFirst
    rw [hcont]
    simp only [if_true]
    rw [hdata, dropWhile_stops _ k.data '=' v.data hkne (by decide)]
    rfl
  refine ⟨?_, ?_, ?_, ?_, ?_, ?_⟩
  · intro sch h; simp [resolveOpt, h]
  · intro h; simp [resolveOpt, h]
  · intro sch h
    rw [createUserConfig_single]
    simp only [compileStep, hcont, if_true, hbf, haf, h]
  · intro h
    rw [createUserConfig_single]
    simp only [compileStep, hcont, if_true, hbf, haf, h]
  · intro h
    simp [UserError.message, h, joinSep]
    rw [String.append_assoc]
    rfl
  · intro p hp
    apply listIsInfix_of_infix
    by_cases hj : joinSep ", " (options.map Prod.fst) = ""
    · have hp0 : p = "" := joinSep_eq_empty _ hj p hp
      subst hp0
      exact List.nil_infix
    · have hmsg : (UserError.unsupportedOption k (options.map Prod.fst)).message =
          ("Unsupported option " ++ pyReprStr k ++ ", available options: ") ++
            joinSep ", " (options.map Prod.fst) := by
        simp [UserError.message, hj]
      rw [hmsg, String.data_append]
      exact infix_append_left_str _ (infix_joinSep ", " p _ hp)

/-- Witness for C2: the `KEY` pattern-property fallback succeeds, and a
double miss on an empty schema reports "none". -/
theorem C2_witness :
    createUserConfig [("KEY", leafSchema "string")] ["anything=val"] =
      .ok [("anything", .val (.str "val"))] ∧
    createUserConfig [] ["nope=1"] =
      .error (.user (.unsupportedOption "nope" [])) ∧
    (UserError.unsupportedOption "nope"
        (([] : List (String × SchemaNode)).map Prod.fst)).message =
      "Unsupported option 'nope', available options: none" := by
  refine ⟨?_, ?_, ?_⟩
  · have h := ((C2_option_lookup [("KEY", leafSchema "string")] "anything" "val"
      (by decide)).2.2.1) (leafSchema "string") rfl
    rw [show ("anything" : String) ++ "=" ++ "val" = "anything=val" from rfl] at h
    rw [h]
    rfl
  · have h := ((C2_option_lookup [] "nope" "1" (by decide)).2.2.2.1) rfl
    rw [show ("nope" : String) ++ "=" ++ "1" = "nope=1" from rfl] at h
    rw [h]
    rfl
  · exact ((C2_option_lookup [] "nope" "1" (by decide)).2.2.2.2.1) rfl

/-! ## Claim C3: failures are value errors and abort the whole compile -/

theorem createUserConfig_eq_foldlM (options : List (String × SchemaNode)) :
    ∀ l : List String, l ≠ [] →
      createUserConfig options l = List.foldlM (compileStep options) [] l := by
  intro l h
  cases l with
  | nil => exact absurd rfl h
  | cons a as => rfl

/-- **C3**: the compile loop is a fold in the error monad — the first
failing assignment aborts the whole call with that error, whatever
assignments follow, and no partial configuration is returned; an
assignment without `=` fails with the `InvalidConfigValue` user error; and
every user error carries a non-empty message. -/
theorem C3_failures_abort :
    (∀ (options : List (String × SchemaNode)) (pre : List String) (kv : String)
        (suf : List String) (cfg : List (String × Cfg)) (e : CliExc),
      List.foldlM (compileStep options) [] pre = .ok cfg →
      compileStep options cfg kv = .error e →
      createUserConfig options (pre ++ kv :: suf) = .error e) ∧
    (∀ (options : List (String × SchemaNode)) (cfg : List (String × Cfg))
        (kv : String), ¬ ('=' ∈ kv.data) →
      compileStep options cfg kv = .error (.user (.invalidConfigValue kv))) ∧
    (∀ e : UserError, e.message ≠ "") := by
  refine ⟨?_, ?_, ?_⟩
  · intro options pre kv suf cfg e hpre hstep
    rw [createUserConfig_eq_foldlM options _ (by simp)]
    rw [List.foldlM_append, hpre]
    show List.foldlM (compileStep options) cfg (kv :: suf) = .error e
    show compileStep options cfg kv >>= _ = _
    rw [hstep]
    rfl
  · intro options cfg kv h
    have hc : kv.data.contains '=' = false := by
      cases hcc : kv.data.contains '=' with
      | false => rfl
      | true =>
        exfalso
        apply h
        simpa [List.contains] using hcc
    simp only [compileStep, hc, Bool.false_eq_true, if_false]
  · intro e h
    have hd := congrArg String.data h
    cases e <;> simp [UserError.message, String.data_append] at hd

/-- Witness for C3: a syntactically invalid assignment aborts the call and
the trailing (valid-looking) assignment is never processed. -/
theorem C3_witness :
    createUserConfig [("a", leafSchema "string")] ["bogus", "a=1"] =
      .error (.user (.invalidConfigValue "bogus")) ∧
    (UserError.invalidConfigValue "bogus").message ≠ "" := by
  constructor
  · exact C3_failures_abort.1 [("a", leafSchema "string")] [] "bogus" ["a=1"] [] _
      rfl (C3_failures_abort.2.1 [("a", leafSchema "string")] [] "bogus" (by decide))
  · exact C3_failures_abort.2.2 _

/-! ## Claim C9: flattening and multiple pattern properties -/

theorem isErr_map {α β : Type} (f : α → β) (x : Except CliExc α) :
    isErr (x.map f) = isErr x := by
  cases x <;> rfl

theorem foldErr (l : List (String × Except CliExc (List (String × SchemaNode)))) :
    ∀ init : List (String × SchemaNode),
      isErr (l.foldlM (fun opts c => c.2.map (updateDict opts)) init) = true ↔
        ∃ c ∈ l, isErr c.2 = true := by
  induction l with
  | nil =>
    intro init
    show isErr (Except.ok init) = true ↔ _
    simp [isErr]
  | cons hd rest ih =>
    intro init
    obtain ⟨k, ex⟩ := hd
    cases ex with
    | error e =>
      show isErr (Except.error e >>= _) = true ↔ _
      constructor
      · intro _; exact ⟨(k, .error e), by simp, rfl⟩
      · intro _; rfl
    | ok v =>
      show isErr (List.foldlM _ (updateDict init v) rest) = true ↔ _
      rw [ih (updateDict init v)]
      constructor
      · rintro ⟨c, hc, hce⟩; exact ⟨c, by simp [hc], hce⟩
      · rintro ⟨c, hc, hce⟩
        rcases List.mem_cons.1 hc with h' | h'
        · subst h'; simp [isErr] at hce
        · exact ⟨c, h', hce⟩

theorem collectFuel_unfold (n : Nat) (tf : TypeField)
    (props pats : List (String × SchemaNode)) (items : Option SchemaNode)
    (pre : String) :
    collectFuel (n + 1) (SchemaNode.mk tf props pats items) pre =
      (match (sortByKeyStr (props.map fun ps =>
          (ps.1,
            if ps.2.typeField = TypeField.s "object" then
              collectFuel n ps.2 (if pre = "" then ps.1 else pre ++ "." ++ ps.1)
            else .ok [((if pre = "" then ps.1 else pre ++ "." ++ ps.1), ps.2)]))).foldlM
          (fun opts c => c.2.map (updateDict opts))
          ([] : List (String × SchemaNode)) with
       | .error e => (.error e : Except CliExc (List (String × SchemaNode)))
       | .ok opts =>
         match pats with
         | [] => .ok opts
         | [(_, spec)] =>
           let fullName := if pre = "" then "KEY" else pre ++ ".KEY"
           if spec.typeField = TypeField.s "object" then
             (collectFuel n spec fullName).map (updateDict opts)
           else .ok (insertKV opts fullName spec)
         | _ =>
           .error (.py (.typeError
             "'<' not supported between instances of 'dict' and 'dict'"))) := rfl

theorem hasVisitedFuel_unfold (n : Nat) (tf : TypeField)
    (props pats : List (String × SchemaNode)) (items : Option SchemaNode) :
    hasVisitedMultiPatternFuel (n + 1) (SchemaNode.mk tf props pats items) =
      ((props.any fun ps =>
        decide (ps.2.typeField = TypeField.s "object") &&
          hasVisitedMultiPatternFuel n ps.2) ||
      (match pats with
       | [] => false
       | [(_, spec)] =>
         decide (spec.typeField = TypeField.s "object") &&
           hasVisitedMultiPatternFuel n spec
       | _ => true)) := rfl

theorem collect_isErr_aux :
    ∀ n : Nat, ∀ node : SchemaNode, ∀ pre : String, schemaSize node ≤ n →
      isErr (collectFuel n node pre) = hasVisitedMultiPatternFuel n node := by
  intro n
  induction n with
  | zero =>
    intro node pre h
    exfalso
    have := schemaSize_pos node
    omega
  | succ n ih =>
    intro node pre hsz
    obtain ⟨tf, props, pats, items⟩ := node
    have hexp : schemaSize (SchemaNode.mk tf props pats items) =
        1 + schemaSizeList props + schemaSizeList pats + schemaSizeOpt items := rfl
    rw [hexp] at hsz
    have hszProps : ∀ p ∈ props, schemaSize p.2 ≤ n := by
      intro p hp
      have h1 := schemaSizeList_mem props p hp
      omega
    have hszPats : ∀ p ∈ pats, schemaSize p.2 ≤ n := by
      intro p hp
      have h1 := schemaSizeList_mem pats p hp
      omega
    rw [collectFuel_unfold, hasVisitedFuel_unfold]
    have hAnyIff : (props.any fun ps =>
        decide (ps.2.typeField = TypeField.s "object") &&
          hasVisitedMultiPatternFuel n ps.2) = true ↔
        ∃ p ∈ props, p.2.typeField = TypeField.s "object" ∧
          isErr (collectFuel n p.2
            (if pre = "" then p.1 else pre ++ "." ++ p.1)) = true := by
      rw [List.any_eq_true]
      constructor
      · rintro ⟨p, hp, hcond⟩
        rw [Bool.and_eq_true, decide_eq_true_eq] at hcond
        exact ⟨p, hp, hcond.1, by rw [ih p.2 _ (hszProps p hp)]; exact hcond.2⟩
      · rintro ⟨p, hp, h1, h2⟩
        refine ⟨p, hp, ?_⟩
        rw [Bool.and_eq_true, decide_eq_true_eq]
        exact ⟨h1, by rw [← ih p.2 _ (hszProps p hp)]; exact h2⟩
    have hFoldIff : isErr ((sortByKeyStr (props.map fun ps =>
        (ps.1,
          if ps.2.typeField = TypeField.s "object" then
            collectFuel n ps.2 (if pre = "" then ps.1 else pre ++ "." ++ ps.1)
          else .ok [((if pre = "" then ps.1 else pre ++ "." ++ ps.1), ps.2)]))).foldlM
        (fun opts c => c.2.map (updateDict opts))
        ([] : List (String × SchemaNode))) = true ↔
        ∃ p ∈ props, p.2.typeField = TypeField.s "object" ∧
          isErr (collectFuel n p.2
            (if pre = "" then p.1 else pre ++ "." ++ p.1)) = true := by
      rw [foldErr]
      constructor
      · rintro ⟨c, hc, hce⟩
        obtain ⟨p, hp, hfp⟩ := List.mem_map.1 ((mem_sortByKeyStr c _).1 hc)
        subst hfp
        by_cases hobj : p.2.typeField = TypeField.s "object"
        · rw [if_pos hobj] at hce
          exact ⟨p, hp, hobj, hce⟩
        · rw [if_neg hobj] at hce
          simp [isErr] at hce
      · rintro ⟨p, hp, h1, h2⟩
        refine ⟨(p.1, collectFuel n p.2
            (if pre = "" then p.1 else pre ++ "." ++ p.1)), ?_, h2⟩
        apply (mem_sortByKeyStr _ _).2
        apply List.mem_map.2
        refine ⟨p, hp, ?_⟩
        rw [if_pos h1]
    cases hF : (sortByKeyStr (props.map fun ps =>
        (ps.1,
          if ps.2.typeField = TypeField.s "object" then
            collectFuel n ps.2 (if pre = "" then ps.1 else pre ++ "." ++ ps.1)
          else .ok [((if pre = "" then ps.1 else pre ++ "." ++ ps.1), ps.2)]))).foldlM
        (fun opts c => c.2.map (updateDict opts))
        ([] : List (String × SchemaNode)) with
    | error e =>
      have hany : (props.any fun ps =>
          decide (ps.2.typeField = TypeField.s "object") &&
            hasVisitedMultiPatternFuel n ps.2) = true :=
        hAnyIff.2 (hFoldIff.1 (by rw [hF]; rfl))
      rw [hany]
      rfl
    | ok opts =>
      have hany : (props.any fun ps =>
          decide (ps.2.typeField = TypeField.s "object") &&
            hasVisitedMultiPatternFuel n ps.2) = false := by
        cases hval : (props.any fun ps =>
            decide (ps.2.typeField = TypeField.s "object") &&
              hasVisitedMultiPatternFuel n ps.2) with
        | false => rfl
        | true =>
          exfalso
          have hErr := hFoldIff.2 (hAnyIff.1 hval)
          rw [hF] at hErr
          exact absurd hErr (by simp [isErr])
      rw [hany]
      cases pats with
      | nil =>
        show isErr (Except.ok opts) = (false || false)
        rfl
      | cons q qs =>
        obtain ⟨qk, qspec⟩ := q
        cases qs with
        | nil =>
          show isErr (if qspec.typeField = TypeField.s "object" then
              (collectFuel n qspec
                (if pre = "" then "KEY" else pre ++ ".KEY")).map (updateDict opts)
            else .ok (insertKV opts (if pre = "" then "KEY" else pre ++ ".KEY") qspec)) =
            (false ||
              (decide (qspec.typeField = TypeField.s "object") &&
                hasVisitedMultiPatternFuel n qspec))
          by_cases hq : qspec.typeField = TypeField.s "object"
          · rw [if_pos hq, isErr_map]
            rw [ih qspec _ (hszPats (qk, qspec) (by simp))]
            simp [hq]
          · rw [if_neg hq]
            simp [isErr, hq]
        | cons q2 qs2 =>
          show true = (false || true)
          rfl

/-- **C9 (amended)**: `collect_user_config_options` raises exactly when a
node *visited by the traversal* (the root, an object-typed named property,
or the object-typed single pattern property, recursively) carries two or
more `patternProperties` entries — the attempted `sorted(...)` of the
pattern-property sub-schemas compares dicts and raises `TypeError`.  A
node with multiple pattern properties sitting under a *non-object-typed*
property is never visited and does not make flattening raise. -/
theorem C9_flattening_visited_nodes :
    ∀ (node : SchemaNode) (pre : String),
      isErr (collectUserConfigOptions node pre) = hasVisitedMultiPattern node :=
  fun node pre => collect_isErr_aux (schemaSize node) node pre (le_refl _)

/-- A leaf-typed node carrying two pattern properties. -/
def twoPatternLeaf : SchemaNode :=
  .mk (.s "string") [] [("p1", leafSchema "string"), ("p2", leafSchema "string")]
    Option.none

/-- A schema whose only property is `twoPatternLeaf` (non-object-typed, so
never recursed into). -/
def twoPatternParent : SchemaNode :=
  .mk (.s "object") [("a", twoPatternLeaf)] [] Option.none

/-- Counterexample to C9 as stated: a schema *containing* a node with two
pattern properties flattens without error, because the offending node is
not object-typed and is stored as a leaf rather than visited; the same
node does raise when it is the traversal root. -/
theorem C9_counterexample :
    collectUserConfigOptions twoPatternParent "" = .ok [("a", twoPatternLeaf)] ∧
    twoPatternLeaf.patternProperties.length = 2 ∧
    isErr (collectUserConfigOptions twoPatternLeaf "") = true :=
  ⟨rfl, rfl, rfl⟩

/-! ## Lemmas about `print_table`'s formatting pass -/

theorem asObjList_ok :
    ∀ result : List Value, (∀ v ∈ result, v.isObj = true) →
      asObjList result = .ok (result.map Value.objFields) := by
  intro result
  induction result with
  | nil => intro _; rfl
  | cons v vs ih =>
    intro h
    cases v with
    | obj fs =>
      show (asObjList vs).map (fs :: ·) = _
      rw [ih fun u hu => h u (by simp [hu])]
      rfl
    | str s => exact absurd (h (.str s) (by simp)) (by simp [Value.isObj])
    | int n => exact absurd (h (.int n) (by simp)) (by simp [Value.isObj])
    | bool b => exact absurd (h (.bool b) (by simp)) (by simp [Value.isObj])
    | null => exact absurd (h .null (by simp)) (by simp [Value.isObj])
    | list xs => exact absurd (h (.list xs) (by simp)) (by simp [Value.isObj])

theorem innerFold_keys (b : String) :
    ∀ (l : List (String × Value)) (acc : Row × Widths),
      (b ∈ acc.2.map Prod.fst ∨ b ∈ l.map Prod.fst) →
      b ∈ ((l.foldl
        (fun rw skv =>
          let fv := formatItem (some skv.1) skv.2
          (insertKV rw.1 skv.1 fv, updateWidth rw.2 skv.1 fv)) acc).2.map Prod.fst) := by
  intro l
  induction l with
  | nil =>
    intro acc h
    rcases h with h' | h'
    · exact h'
    · simp at h'
  | cons skv rest ih =>
    intro acc h
    rw [List.foldl_cons]
    apply ih
    have hacc : ∀ hb : b ∈ acc.2.map Prod.fst ∨ b = skv.1,
        b ∈ ((updateWidth acc.2 skv.1 (formatItem (some skv.1) skv.2)).map Prod.fst) := by
      intro hb
      rw [updateWidth, keys_insertKV]
      tauto
    rcases h with h' | h'
    · exact Or.inl (hacc (Or.inl h'))
    · rw [List.map_cons] at h'
      rcases List.mem_cons.1 h' with h'' | h''
      · exact Or.inl (hacc (Or.inr h''))
      · exact Or.inr h''

theorem processField_keys (b : String) (drop : List String) (acc : Row × Widths)
    (kv : String × Value)
    (h : b ∈ acc.2.map Prod.fst ∨
      (drop.contains kv.1 = false ∧ b ∈ (iterValues kv.1 kv.2).map Prod.fst)) :
    b ∈ (processField drop acc kv).2.map Prod.fst := by
  unfold processField
  by_cases hd : drop.contains kv.1 = true
  · rw [if_pos hd]
    rcases h with h' | h'
    · exact h'
    · rw [h'.1] at hd; exact absurd hd (by simp)
  · rw [if_neg hd]
    apply innerFold_keys
    rcases h with h' | h'
    · exact Or.inl h'
    · exact Or.inr h'.2

theorem processItem_fold_keys (b : String) (drop : List String) :
    ∀ (fields : List (String × Value)) (acc : Row × Widths),
      (b ∈ acc.2.map Prod.fst ∨ b ∈ itemKeys drop fields) →
      b ∈ ((fields.foldl (processField drop) acc).2.map Prod.fst) := by
  intro fields
  induction fields with
  | nil =>
    intro acc h
    rcases h with h' | h'
    · exact h'
    · simp [itemKeys] at h'
  | cons kv rest ih =>
    intro acc h
    rw [List.foldl_cons]
    apply ih
    by_cases hd : drop.contains kv.1 = true
    · have hmem : kv.1 ∈ drop := by simpa [List.contains] using hd
      have hik : itemKeys drop (kv :: rest) = itemKeys drop rest := by
        simp [itemKeys, List.filter_cons, hmem]
      rcases h with h' | h'
      · exact Or.inl (processField_keys b drop acc kv (Or.inl h'))
      · rw [hik] at h'
        exact Or.inr h'
    · have hd' : drop.contains kv.1 = false := by
        cases hdd : drop.contains kv.1
        · rfl
        · exact absurd hdd hd
      have hmem : ¬ (kv.1 ∈ drop) := by simpa [List.contains] using hd'
      have hik : itemKeys drop (kv :: rest) =
          (iterValues kv.1 kv.2).map Prod.fst ++ itemKeys drop rest := by
        simp [itemKeys, List.filter_cons, hmem]
      rcases h with h' | h'
      · exact Or.inl (processField_keys b drop acc kv (Or.inl h'))
      · rw [hik] at h'
        rcases List.mem_append.1 h' with h'' | h''
        · exact Or.inl (processField_keys b drop acc kv (Or.inr ⟨hd', h''⟩))
        · exact Or.inr h''

theorem buildRows_fold_keys (b : String) (drop : List String) :
    ∀ (items : List (List (String × Value))) (acc : List Row × Widths),
      (b ∈ acc.2.map Prod.fst ∨ b ∈ items.flatMap (itemKeys drop)) →
      b ∈ ((items.foldl
        (fun acc fields =>
          let rw := processItem drop acc.2 fields
          (acc.1 ++ [rw.1], rw.2)) acc).2.map Prod.fst) := by
  intro items
  induction items with
  | nil =>
    intro acc h
    rcases h with h' | h'
    · exact h'
    · simp at h'
  | cons fields rest ih =>
    intro acc h
    rw [List.foldl_cons]
    apply ih
    rcases h with h' | h'
    · exact Or.inl (processItem_fold_keys b drop fields ([], acc.2) (Or.inl h'))
    · rw [List.flatMap_cons] at h'
      rcases List.mem_append.1 h' with h'' | h''
      · exact Or.inl (processItem_fold_keys b drop fields ([], acc.2) (Or.inr h''))
      · exact Or.inr h''

theorem tableWidths_covers (b : String) (drop : List String) (result : List Value)
    (h : b ∈ allFieldKeys drop result) :
    b ∈ (tableWidths drop result).map Prod.fst := by
  apply buildRows_fold_keys
  right
  rw [allFieldKeys] at h
  obtain ⟨v, hv, hbv⟩ := List.mem_flatMap.1 h
  exact List.mem_flatMap.2 ⟨v.objFields, List.mem_map.2 ⟨v, hv, rfl⟩, hbv⟩

/-- Every width in the accumulated `widths` dict is at least 1. -/
def WidthsOk (w : Widths) : Prop := ∀ p ∈ w, 1 ≤ p.2

theorem widthsOk_update (w : Widths) (hw : WidthsOk w) (k fv : String) :
    WidthsOk (updateWidth w k fv) := by
  intro p hp
  rcases mem_insertKV p k _ w hp with h' | h'
  · rw [h']
    show 1 ≤ Nat.max _ (Nat.max _ ((List.lookup k w).getD 1))
    have h1 : 1 ≤ (List.lookup k w).getD 1 := by
      cases hl : List.lookup k w with
      | none => simp
      | some v => simpa using hw (k, v) (lookup_mem k v w hl)
    exact le_trans h1 (le_trans (Nat.le_max_right _ _) (Nat.le_max_right _ _))
  · exact hw p h'

theorem widthsOk_innerFold :
    ∀ (l : List (String × Value)) (acc : Row × Widths), WidthsOk acc.2 →
      WidthsOk ((l.foldl
        (fun rw skv =>
          let fv := formatItem (some skv.1) skv.2
          (insertKV rw.1 skv.1 fv, updateWidth rw.2 skv.1 fv)) acc).2) := by
  intro l
  induction l with
  | nil => intro acc h; exact h
  | cons skv rest ih =>
    intro acc h
    rw [List.foldl_cons]
    exact ih _ (widthsOk_update acc.2 h skv.1 _)

theorem widthsOk_processField (drop : List String) (acc : Row × Widths)
    (kv : String × Value) (h : WidthsOk acc.2) :
    WidthsOk (processField drop acc kv).2 := by
  unfold processField
  by_cases hd : drop.contains kv.1 = true
  · rw [if_pos hd]; exact h
  · rw [if_neg hd]; exact widthsOk_innerFold _ acc h

theorem widthsOk_processItem_fold (drop : List String) :
    ∀ (fields : List (String × Value)) (acc : Row × Widths), WidthsOk acc.2 →
      WidthsOk ((fields.foldl (processField drop) acc).2) := by
  intro fields
  induction fields with
  | nil => intro acc h; exact h
  | cons kv rest ih =>
    intro acc h
    rw [List.foldl_cons]
    exact ih _ (widthsOk_processField drop acc kv h)

theorem widthsOk_buildRows (drop : List String) :
    ∀ (items : List (List (String × Value))) (acc : List Row × Widths),
      WidthsOk acc.2 →
      WidthsOk ((items.foldl
        (fun acc fields =>
          let rw := processItem drop acc.2 fields
          (acc.1 ++ [rw.1], rw.2)) acc).2) := by
  intro items
  induction items with
  | nil => intro acc h; exact h
  | cons fields rest ih =>
    intro acc h
    rw [List.foldl_cons]
    exact ih _ (widthsOk_processItem_fold drop fields ([], acc.2) h)

theorem tableWidths_ge_one (drop : List String) (result : List Value)
    (f : String) (w : Nat) (h : List.lookup f (tableWidths drop result) = some w) :
    1 ≤ w := by
  have hok : WidthsOk (tableWidths drop result) :=
    widthsOk_buildRows drop _ ([], []) (by intro p hp; simp at hp)
  exact hok (f, w) (lookup_mem f w _ h)

theorem resolveWidths_ok (widths : Widths) :
    ∀ fs : List String, (∀ f ∈ fs, f ∈ widths.map Prod.fst) →
      resolveWidths widths fs =
        .ok (fs.map fun f => (f, (List.lookup f widths).getD 0)) := by
  intro fs
  induction fs with
  | nil => intro _; rfl
  | cons f rest ih =>
    intro h
    have hf : (List.lookup f widths).isSome = true :=
      (lookup_isSome_iff f widths).2 (h f (by simp))
    cases hl : List.lookup f widths with
    | none => rw [hl] at hf; simp at hf
    | some w =>
      show (match List.lookup f widths with
        | some w => (resolveWidths widths rest).map ((f, w) :: ·)
        | Option.none => .error (.keyError f)) = _
      rw [hl, ih fun g hg => h g (by simp [hg])]
      show Except.ok ((f, w) :: _) = _
      rw [List.map_cons, hl]
      rfl

theorem buildRows_length (drop : List String) :
    ∀ (items : List (List (String × Value))) (acc : List Row × Widths),
      ((items.foldl
        (fun acc fields =>
          let rw := processItem drop acc.2 fields
          (acc.1 ++ [rw.1], rw.2)) acc).1).length = acc.1.length + items.length := by
  intro items
  induction items with
  | nil => intro acc; simp
  | cons fields rest ih =>
    intro acc
    rw [List.foldl_cons, ih]
    simp
    omega

theorem tableRows_length (drop : List String) (result : List Value) :
    (tableRows drop result).length = result.length := by
  show ((result.map Value.objFields).foldl _ ([], [])).1.length = _
  rw [buildRows_length]
  simp

theorem renderRows_no_verticals (hw : List (String × Nat)) (vw : Nat) :
    ∀ (rows : List Row) (n : Nat),
      renderRows hw [] vw n rows = rows.map (dataLine hw) := by
  intro rows
  induction rows with
  | nil => intro n; rfl
  | cons row rest ih =>
    intro n
    show (((if (!(List.isEmpty []) && decide (n > 0)) = true then [""] else []) ++
      (dataLine hw row :: detailLines [] vw row)) ++ renderRows hw [] vw (n + 1) rest) = _
    rw [ih]
    rfl

theorem renderRows_two (hw : List (String × Nat)) (vw : Nat)
    (vfs : List (List String)) (hvfs : vfs ≠ []) (r1 r2 : Row) :
    renderRows hw vfs vw 0 [r1, r2] =
      (dataLine hw r1 :: detailLines vfs vw r1) ++ [""] ++
        (dataLine hw r2 :: detailLines vfs vw r2) := by
  cases vfs with
  | nil => exact absurd rfl hvfs
  | cons x xs => simp [renderRows]

/-- The successful shape of a `print_table` call: header, separator, then
the rendered record rows. -/
theorem printTable_structure (drop : List String) (layout : TableLayout)
    (v : Value) (vs : List Value)
    (hobj : ∀ u ∈ v :: vs, u.isObj = true)
    (h : List String) (t : List (List String))
    (hnorm : normalizeLayout (tableWidths drop (v :: vs)) layout = .ok (h, t))
    (hcov : ∀ f ∈ h, f ∈ (tableWidths drop (v :: vs)).map Prod.fst) :
    printTable (v :: vs) drop layout = .ok
      (headerLine (resolvedHW drop (v :: vs) h) ::
        sepLine (resolvedHW drop (v :: vs) h) ::
        renderRows (resolvedHW drop (v :: vs) h) t
          (verticalWidth (tableRows drop (v :: vs)) t) 0 (tableRows drop (v :: vs))) := by
  have hv : v.isObj = true := hobj v (by simp)
  have hitems := asObjList_ok (v :: vs) hobj
  unfold tableWidths at hnorm hcov
  have hres := resolveWidths_ok _ h hcov
  simp only [printTable, hv, if_true, hitems, bind, Except.bind, hnorm, hres]
  rfl

/-- Normalization of each layout shape under the good-input condition. -/
theorem normalizeLayout_cases (drop : List String) (result : List Value) :
    (allFieldKeys drop result ≠ [] →
      ∃ c cs, sortStrings ((tableWidths drop result).map Prod.fst) = c :: cs ∧
        normalizeLayout (tableWidths drop result) TableLayout.noLayout =
          .ok (c :: cs, [])) ∧
    (∀ f fs, normalizeLayout (tableWidths drop result) (.flat (f :: fs)) =
      .ok (f :: fs, [])) ∧
    (∀ hrow trows, normalizeLayout (tableWidths drop result) (.nested (hrow :: trows)) =
      .ok (hrow, trows)) := by
  refine ⟨?_, fun f fs => rfl, fun hrow trows => rfl⟩
  intro hne
  obtain ⟨b, hb⟩ := List.exists_mem_of_ne_nil _ hne
  have hbw : b ∈ (tableWidths drop result).map Prod.fst := tableWidths_covers b drop result hb
  have hsne : sortStrings ((tableWidths drop result).map Prod.fst) ≠ [] := by
    intro hs
    rw [sortStrings_eq_nil] at hs
    rw [hs] at hbw
    simp at hbw
  cases hc : sortStrings ((tableWidths drop result).map Prod.fst) with
  | nil => exact absurd hc hsne
  | cons c cs =>
    refine ⟨c, cs, rfl, ?_⟩
    show (match sortStrings ((tableWidths drop result).map Prod.fst) with
      | [] => (.error (.indexError "list index out of range") :
          Except PyExc (List String × List (List String)))
      | fs => .ok (fs, [])) = _
    rw [hc]

/-! ## Claim C1: when the renderer cannot raise -/

/-- **C1 (amended)**: an empty record list produces no output; a list whose
*first* element is not a mapping degrades to list mode; and rendering
cannot raise provided every record is a mapping, the effective layout is
non-empty, and every horizontal column appears among some record's
flattened fields — a field missing from *some* records renders as the
empty string (padded cell), but a column absent from *every* record raises
`KeyError`, an empty layout raises `IndexError`, and a non-mapping record
after a mapping head raises `AttributeError`. -/
theorem C1_no_raise_conditions :
    (∀ (drop : List String) (layout : TableLayout),
      printTable [] drop layout = .ok []) ∧
    (∀ (v : Value) (vs : List Value) (drop : List String) (layout : TableLayout),
      v.isObj = false → printTable (v :: vs) drop layout = .ok (printList (v :: vs))) ∧
    (∀ (result : List Value) (drop : List String) (layout : TableLayout),
      result ≠ [] → GoodTableInput result drop layout →
      ∃ lines, printTable result drop layout = .ok lines) ∧
    (∀ (f : String) (w : Nat) (row : Row), List.lookup f row = Option.none →
      dataLine [(f, w)] row = ljust "" w) := by
  refine ⟨fun _ _ => rfl, ?_, ?_, ?_⟩
  · intro v vs drop layout hv
    simp only [printTable, hv, Bool.false_eq_true, if_false]
  · intro result drop layout hne hgood
    cases result with
    | nil => exact absurd rfl hne
    | cons v vs =>
      have hobj := hgood.1
      cases layout with
      | noLayout =>
        have hcond : allFieldKeys drop (v :: vs) ≠ [] := hgood.2
        obtain ⟨c, cs, hsort, hnorm⟩ :=
          (normalizeLayout_cases drop (v :: vs)).1 hcond
        have hcov : ∀ f ∈ c :: cs, f ∈ (tableWidths drop (v :: vs)).map Prod.fst := by
          intro f hf
          rw [← hsort] at hf
          exact (mem_sortStrings f _).1 hf
        exact ⟨_, printTable_structure drop _ v vs hobj _ _ hnorm hcov⟩
      | flat fs =>
        obtain ⟨hfne, hfcov⟩ := hgood.2
        cases fs with
        | nil => exact absurd rfl hfne
        | cons f fs' =>
          have hnorm := (normalizeLayout_cases drop (v :: vs)).2.1 f fs'
          have hcov : ∀ g ∈ f :: fs', g ∈ (tableWidths drop (v :: vs)).map Prod.fst :=
            fun g hg => tableWidths_covers g drop (v :: vs) (hfcov g hg)
          exact ⟨_, printTable_structure drop _ v vs hobj _ _ hnorm hcov⟩
      | nested rows =>
        obtain ⟨hrne, hrcov⟩ := hgood.2
        cases rows with
        | nil => exact absurd rfl hrne
        | cons hrow trows =>
          have hnorm := (normalizeLayout_cases drop (v :: vs)).2.2 hrow trows
          have hcov : ∀ g ∈ hrow, g ∈ (tableWidths drop (v :: vs)).map Prod.fst :=
            fun g hg => tableWidths_covers g drop (v :: vs) (hrcov g (by simpa using hg))
          exact ⟨_, printTable_structure drop _ v vs hobj _ _ hnorm hcov⟩
  · intro f w row hnone
    show joinSep "  " [ljust ((List.lookup f row).getD "") w] = _
    rw [hnone]
    rfl

/-- Counterexample to C1 as stated: a layout column that appears in no
record raises `KeyError` instead of rendering as an empty string. -/
theorem C1_counterexample :
    printTable [.obj [("a", .int 1)]] [] (.flat ["b"]) = .error (.keyError "b") := rfl

/-- Witness for C1 at concrete inputs. -/
theorem C1_witness :
    printTable [.int 7, .obj [("a", .int 1)]] [] .noLayout =
      .ok ["7", "\x7b\"a\": 1\x7d"] ∧
    (∃ lines, printTable [.obj [("a", .int 1)], .obj [("b", .int 2)]] []
      (.flat ["a", "b"]) = .ok lines) ∧
    dataLine [("b", 3)] [("a", "1")] = ljust "" 3 := by
  refine ⟨?_, ?_, ?_⟩
  · exact C1_no_raise_conditions.2.1 (.int 7) [.obj [("a", .int 1)]] [] .noLayout rfl
  · exact C1_no_raise_conditions.2.2.1 [.obj [("a", .int 1)], .obj [("b", .int 2)]] []
      (.flat ["a", "b"]) (by simp) (by constructor <;> decide)
  · exact C1_no_raise_conditions.2.2.2 "b" 3 [("a", "1")] rfl

/-! ## Claim C5: rendering without a layout -/

/-- **C5 (corrected)**: without a `LayoutSpec` the renderer does *not*
produce `key = value` blocks — it synthesizes a horizontal table whose
columns are the distinct flattened field names sorted alphabetically, and
prints an upper-cased header row, a `=` separator row, and then exactly
one data row per record, with no blank lines and no vertical blocks. -/
theorem C5_default_layout :
    (∀ (v : Value) (vs : List Value) (drop : List String),
      (∀ u ∈ v :: vs, u.isObj = true) →
      allFieldKeys drop (v :: vs) ≠ [] →
      printTable (v :: vs) drop .noLayout = .ok
        (headerLine (resolvedHW drop (v :: vs)
            (sortStrings ((tableWidths drop (v :: vs)).map Prod.fst))) ::
          sepLine (resolvedHW drop (v :: vs)
            (sortStrings ((tableWidths drop (v :: vs)).map Prod.fst))) ::
          (tableRows drop (v :: vs)).map (dataLine (resolvedHW drop (v :: vs)
            (sortStrings ((tableWidths drop (v :: vs)).map Prod.fst)))))) ∧
    (∀ (drop : List String) (result : List Value),
      (tableRows drop result).length = result.length) := by
  constructor
  · intro v vs drop hobj hne
    obtain ⟨c, cs, hsort, hnorm⟩ := (normalizeLayout_cases drop (v :: vs)).1 hne
    have hcov : ∀ f ∈ c :: cs, f ∈ (tableWidths drop (v :: vs)).map Prod.fst := by
      intro f hf
      rw [← hsort] at hf
      exact (mem_sortStrings f _).1 hf
    have hs := printTable_structure drop .noLayout v vs hobj (c :: cs) [] hnorm hcov
    rw [renderRows_no_verticals] at hs
    rw [hs, hsort]
  · intro drop result
    exact tableRows_length drop result

/-- Counterexample to C5 as stated: the default layout prints a header and
separator row, not `key = value` lines. -/
theorem C5_counterexample :
    printTable [.obj [("a", .int 1)]] [] .noLayout = .ok ["A", "=", "1"] ∧
    (["A", "=", "1"] : List String) ≠ ["a = 1"] := ⟨rfl, by decide⟩

/-- Witness for C5: two records, two sorted columns, header + separator +
one row per record. -/
theorem C5_witness :
    printTable [.obj [("b", .int 5)], .obj [("a", .int 1)]] [] .noLayout =
      .ok ["A  B", "=  =", "   5", "1   "] := by
  have h := C5_default_layout.1 (.obj [("b", .int 5)]) [.obj [("a", .int 1)]] []
    (by decide) (by decide)
  rw [h]
  rfl

/-! ## Claim C6: the vertical alignment width -/

/-- **C6 (amended)**: the `"    {field} = {value}"` alignment width equals
the maximum de-prefixed field-name length over the fields *of the last
record only* that match some vertical pattern — `longest` reads the
`formatted_row` variable left over from the formatting loop, i.e. the last
record's row — and the rendered table uses exactly that width for every
record's detail lines. -/
theorem C6_vertical_width_last_record :
    (∀ (rows : List Row) (t : List (List String)), t ≠ [] →
      verticalWidth rows t = specDetailWidthLastRecord rows t) ∧
    (∀ (drop : List String) (v : Value) (vs : List Value)
        (hrow : List String) (t : List (List String)),
      (∀ u ∈ v :: vs, u.isObj = true) → t ≠ [] →
      (∀ f ∈ hrow, f ∈ allFieldKeys drop (v :: vs)) →
      printTable (v :: vs) drop (.nested (hrow :: t)) = .ok
        (headerLine (resolvedHW drop (v :: vs) hrow) ::
          sepLine (resolvedHW drop (v :: vs) hrow) ::
          renderRows (resolvedHW drop (v :: vs) hrow) t
            (specDetailWidthLastRecord (tableRows drop (v :: vs)) t) 0
            (tableRows drop (v :: vs)))) := by
  have hmain : ∀ (rows : List Row) (t : List (List String)), t ≠ [] →
      verticalWidth rows t = specDetailWidthLastRecord rows t := by
    intro rows t hne
    have hie : t.isEmpty = false := by
      cases t with
      | nil => exact absurd rfl hne
      | cons x xs => rfl
    rw [verticalWidth, hie]
    simp only [Bool.false_eq_true, if_false]
    apply Nat.le_antisymm
    · apply pyMax_le
      intro y hy
      obtain ⟨vfRow, hvfRow, hyeq⟩ := List.mem_map.1 hy
      subst hyeq
      apply pyMax_le
      intro z hz
      obtain ⟨vf, hvf, hzeq⟩ := List.mem_map.1 hz
      subst hzeq
      apply pyMax_le
      intro u hu
      obtain ⟨kv, hkv, hueq⟩ := List.mem_map.1 hu
      subst hueq
      have hkv' := List.mem_filter.1 hkv
      apply le_pyMax_of_mem
      apply List.mem_map.2
      refine ⟨kv, List.mem_filter.2 ⟨hkv'.1, ?_⟩, rfl⟩
      rw [matchedByAnyVertical, List.any_eq_true]
      exact ⟨vfRow, hvfRow, List.any_eq_true.2 ⟨vf, hvf, hkv'.2⟩⟩
    · apply pyMax_le
      intro u hu
      obtain ⟨kv, hkv, hueq⟩ := List.mem_map.1 hu
      subst hueq
      have hkv' := List.mem_filter.1 hkv
      have hany := hkv'.2
      rw [matchedByAnyVertical, List.any_eq_true] at hany
      obtain ⟨vfRow, hvfRow, hvfRow'⟩ := hany
      obtain ⟨vf, hvf, hmatch⟩ := List.any_eq_true.1 hvfRow'
      have h1 : (afterFirst '.' kv.1).length ≤
          longestMatch ((rows.getLast?).getD []) vf := by
        apply le_pyMax_of_mem
        apply List.mem_map.2
        exact ⟨kv, List.mem_filter.2 ⟨hkv'.1, hmatch⟩, rfl⟩
      have h2 : longestMatch ((rows.getLast?).getD []) vf ≤
          pyMax (vfRow.map (longestMatch ((rows.getLast?).getD []))) := by
        apply le_pyMax_of_mem
        exact List.mem_map.2 ⟨vf, hvf, rfl⟩
      have h3 : pyMax (vfRow.map (longestMatch ((rows.getLast?).getD []))) ≤
          pyMax (t.map fun vfRow =>
            pyMax (vfRow.map (longestMatch ((rows.getLast?).getD [])))) := by
        apply le_pyMax_of_mem
        exact List.mem_map.2 ⟨vfRow, hvfRow, rfl⟩
      omega
  refine ⟨hmain, ?_⟩
  intro drop v vs hrow t hobj htne hcov
  have hnorm := (normalizeLayout_cases drop (v :: vs)).2.2 hrow t
  have hcov' : ∀ f ∈ hrow, f ∈ (tableWidths drop (v :: vs)).map Prod.fst :=
    fun f hf => tableWidths_covers f drop (v :: vs) (hcov f hf)
  have hs := printTable_structure drop _ v vs hobj hrow t hnorm hcov'
  rw [hmain (tableRows drop (v :: vs)) t htne] at hs
  exact hs

/-- Counterexample to C6 as stated: with two records, the width comes from
the last record's fields only (here 1, for `x`), not from the maximum over
all records (10, for `field_long`) — record 2's detail line is `    x = 2`,
not `    x          = 2`. -/
theorem C6_counterexample :
    printTable [.obj [("s", .obj [("field_long", .int 1)])],
        .obj [("s", .obj [("x", .int 2)])]] [] (.nested [["s.x"], ["s.*"]]) =
      .ok ["S.X", "===", "   ", "    field_long = 1", "", "2  ", "    x = 2"] ∧
    verticalWidth (tableRows [] [.obj [("s", .obj [("field_long", .int 1)])],
        .obj [("s", .obj [("x", .int 2)])]]) [["s.*"]] = 1 ∧
    specDetailWidthAllRecords (tableRows [] [.obj [("s", .obj [("field_long", .int 1)])],
        .obj [("s", .obj [("x", .int 2)])]]) [["s.*"]] = 10 ∧
    ("    x          = 2" : String) ∉
      (["S.X", "===", "   ", "    field_long = 1", "", "2  ", "    x = 2"] :
        List String) := ⟨rfl, rfl, rfl, by decide⟩

/-- Witness for C6's amended statement at the same concrete input. -/
theorem C6_witness :
    printTable [.obj [("s", .obj [("field_long", .int 1)])],
        .obj [("s", .obj [("x", .int 2)])]] [] (.nested [["s.x"], ["s.*"]]) =
      .ok (headerLine (resolvedHW [] [.obj [("s", .obj [("field_long", .int 1)])],
            .obj [("s", .obj [("x", .int 2)])]] ["s.x"]) ::
        sepLine (resolvedHW [] [.obj [("s", .obj [("field_long", .int 1)])],
            .obj [("s", .obj [("x", .int 2)])]] ["s.x"]) ::
        renderRows (resolvedHW [] [.obj [("s", .obj [("field_long", .int 1)])],
            .obj [("s", .obj [("x", .int 2)])]] ["s.x"]) [["s.*"]]
          (specDetailWidthLastRecord (tableRows [] [.obj [("s", .obj [("field_long", .int 1)])],
            .obj [("s", .obj [("x", .int 2)])]]) [["s.*"]]) 0
          (tableRows [] [.obj [("s", .obj [("field_long", .int 1)])],
            .obj [("s", .obj [("x", .int 2)])]])) ∧
    specDetailWidthLastRecord (tableRows [] [.obj [("s", .obj [("field_long", .int 1)])],
        .obj [("s", .obj [("x", .int 2)])]]) [["s.*"]] = 1 := by
  constructor
  · exact C6_vertical_width_last_record.2 [] (.obj [("s", .obj [("field_long", .int 1)])])
      [.obj [("s", .obj [("x", .int 2)])]] ["s.x"] [["s.*"]]
      (by decide) (by decide) (by decide)
  · rfl

/-! ## Claim C8: the blank separator line -/

theorem str_length_pos_ne_empty (s : String) (h : 1 ≤ s.length) : s ≠ "" := by
  intro he
  rw [he] at h
  simp at h

theorem joinSep_length_ge_head (sep x : String) (xs : List String) :
    x.length ≤ (joinSep sep (x :: xs)).length := by
  obtain ⟨t, ht⟩ := foldl_append_extends sep xs x
  show x.length ≤ (xs.foldl _ x).length
  rw [ht, String.length_append]
  omega

theorem ljust_length (s : String) (w : Nat) :
    (ljust s w).length = s.length + (w - s.length) := by
  show (s ++ String.mk (List.replicate (w - s.length) ' ')).length = _
  rw [String.length_append]
  show s.length + (List.replicate (w - s.length) ' ').length = _
  rw [List.length_replicate]

theorem dataLine_ne_empty (f : String) (w : Nat) (rest : List (String × Nat))
    (row : Row) (hw1 : 1 ≤ w) : dataLine ((f, w) :: rest) row ≠ "" := by
  apply str_length_pos_ne_empty
  show 1 ≤ (joinSep "  " ((((f, w) :: rest)).map
    fun fw => ljust ((List.lookup fw.1 row).getD "") fw.2)).length
  rw [List.map_cons]
  refine le_trans ?_ (joinSep_length_ge_head "  " _ _)
  rw [ljust_length]
  omega

theorem headerLine_ne_empty (f : String) (w : Nat) (rest : List (String × Nat))
    (hw1 : 1 ≤ w) : headerLine ((f, w) :: rest) ≠ "" := by
  apply str_length_pos_ne_empty
  show 1 ≤ (joinSep "  " ((((f, w) :: rest)).map
    fun fw => ljust (pyUpper fw.1) fw.2)).length
  rw [List.map_cons]
  refine le_trans ?_ (joinSep_length_ge_head "  " _ _)
  rw [ljust_length]
  omega

theorem sepLine_ne_empty (f : String) (w : Nat) (rest : List (String × Nat))
    (hw1 : 1 ≤ w) : sepLine ((f, w) :: rest) ≠ "" := by
  apply str_length_pos_ne_empty
  show 1 ≤ (joinSep "  " ((((f, w) :: rest)).map
    fun fw => repeatChar '=' fw.2)).length
  rw [List.map_cons]
  refine le_trans ?_ (joinSep_length_ge_head "  " _ _)
  show 1 ≤ (String.mk (List.replicate w '=')).length
  show 1 ≤ (List.replicate w '=').length
  rw [List.length_replicate]
  omega

theorem detailLines_no_empty (t : List (List String)) (vw : Nat) (row : Row) :
    ∀ l ∈ detailLines t vw row, l ≠ "" := by
  intro l hl
  rw [detailLines] at hl
  obtain ⟨vfRow, _, hl2⟩ := List.mem_flatMap.1 hl
  obtain ⟨vf, _, hl3⟩ := List.mem_flatMap.1 hl2
  obtain ⟨kv, _, hl4⟩ := List.mem_filterMap.1 hl3
  have hl5 : "    " ++ ljust (afterFirst '.' kv.1) vw ++ " = " ++ kv.2 = l := by
    by_cases hm : fnmatchB kv.1 vf = true
    · rw [if_pos hm] at hl4
      exact Option.some.inj hl4
    · rw [if_neg hm] at hl4
      exact absurd hl4 (by simp)
  apply str_length_pos_ne_empty
  rw [← hl5]
  rw [String.length_append, String.length_append, String.length_append]
  have : ("    " : String).length = 4 := rfl
  omega

/-- **C8**: with vertical rows, exactly one blank separator line appears
before each record's block after the first: for two records the output is
header, separator, record 1's block, one blank line, record 2's block — no
blank line before record 1's block or after record 2's, and none of the
block lines (data rows, detail lines) or header lines is blank. -/
theorem C8_blank_separator :
    ∀ (r1 r2 : Value) (drop : List String) (f0 : String) (hr : List String)
      (t : List (List String)),
      (∀ u ∈ [r1, r2], u.isObj = true) → t ≠ [] →
      (∀ f ∈ f0 :: hr, f ∈ allFieldKeys drop [r1, r2]) →
      ∃ b1 b2,
        printTable [r1, r2] drop (.nested ((f0 :: hr) :: t)) =
          .ok ([headerLine (resolvedHW drop [r1, r2] (f0 :: hr)),
                sepLine (resolvedHW drop [r1, r2] (f0 :: hr))] ++
            b1 ++ [""] ++ b2) ∧
        "" ∉ b1 ∧ "" ∉ b2 ∧
        headerLine (resolvedHW drop [r1, r2] (f0 :: hr)) ≠ "" ∧
        sepLine (resolvedHW drop [r1, r2] (f0 :: hr)) ≠ "" := by
  intro r1 r2 drop f0 hr t hobj htne hcov
  have hnorm := (normalizeLayout_cases drop [r1, r2]).2.2 (f0 :: hr) t
  have hcov' : ∀ f ∈ f0 :: hr, f ∈ (tableWidths drop [r1, r2]).map Prod.fst :=
    fun f hf => tableWidths_covers f drop [r1, r2] (hcov f hf)
  have hs := printTable_structure drop _ r1 [r2] hobj (f0 :: hr) t hnorm hcov'
  -- the two formatted rows
  have hlen : (tableRows drop [r1, r2]).length = 2 := tableRows_length drop [r1, r2]
  obtain ⟨a, b, hab⟩ := List.length_eq_two.1 hlen
  rw [hab] at hs
  rw [renderRows_two _ _ t htne] at hs
  -- the width of the first column
  have hf0 : (List.lookup f0 (tableWidths drop [r1, r2])).isSome = true :=
    (lookup_isSome_iff f0 _).2 (hcov' f0 (by simp))
  obtain ⟨w0, hw0⟩ := Option.isSome_iff_exists.1 hf0
  have hw1 : 1 ≤ w0 := tableWidths_ge_one drop [r1, r2] f0 w0 hw0
  have hhw : resolvedHW drop [r1, r2] (f0 :: hr) =
      (f0, w0) :: hr.map fun f => (f, (List.lookup f (tableWidths drop [r1, r2])).getD 0) := by
    show (f0, (List.lookup f0 (tableWidths drop [r1, r2])).getD 0) :: _ = _
    rw [hw0]
    rfl
  refine ⟨dataLine (resolvedHW drop [r1, r2] (f0 :: hr)) a ::
      detailLines t (verticalWidth [a, b] t) a,
    dataLine (resolvedHW drop [r1, r2] (f0 :: hr)) b ::
      detailLines t (verticalWidth [a, b] t) b, ?_, ?_, ?_, ?_, ?_⟩
  · rw [hs]
    simp
  · intro hmem
    rcases List.mem_cons.1 hmem with h' | h'
    · rw [hhw] at h'
      exact dataLine_ne_empty f0 w0 _ a hw1 h'.symm
    · exact detailLines_no_empty t _ a "" h' rfl
  · intro hmem
    rcases List.mem_cons.1 hmem with h' | h'
    · rw [hhw] at h'
      exact dataLine_ne_empty f0 w0 _ b hw1 h'.symm
    · exact detailLines_no_empty t _ b "" h' rfl
  · rw [hhw]
    exact headerLine_ne_empty f0 w0 _ hw1
  · rw [hhw]
    exact sepLine_ne_empty f0 w0 _ hw1

/-- Witness for C8: two records, one vertical row — exactly one blank line,
between the two blocks. -/
theorem C8_witness :
    (∃ b1 b2,
      printTable [.obj [("a", .int 1), ("d", .obj [("k", .int 3)])], .obj [("a", .int 2)]]
          [] (.nested [["a"], ["d.*"]]) =
        .ok ([headerLine (resolvedHW []
                [.obj [("a", .int 1), ("d", .obj [("k", .int 3)])], .obj [("a", .int 2)]]
                ["a"]),
              sepLine (resolvedHW []
                [.obj [("a", .int 1), ("d", .obj [("k", .int 3)])], .obj [("a", .int 2)]]
                ["a"])] ++ b1 ++ [""] ++ b2) ∧
      "" ∉ b1 ∧ "" ∉ b2 ∧
      headerLine (resolvedHW []
        [.obj [("a", .int 1), ("d", .obj [("k", .int 3)])], .obj [("a", .int 2)]]
        ["a"]) ≠ "" ∧
      sepLine (resolvedHW []
        [.obj [("a", .int 1), ("d", .obj [("k", .int 3)])], .obj [("a", .int 2)]]
        ["a"]) ≠ "") ∧
    printTable [.obj [("a", .int 1), ("d", .obj [("k", .int 3)])], .obj [("a", .int 2)]]
        [] (.nested [["a"], ["d.*"]]) =
      .ok ["A", "=", "1", "    k = 3", "", "2"] :=
  ⟨C8_blank_separator (.obj [("a", .int 1), ("d", .obj [("k", .int 3)])])
      (.obj [("a", .int 2)]) [] "a" [] [["d.*"]]
      (by decide) (by decide) (by decide),
    rfl⟩
